import Mathlib

/-!
Verification of `cloudwatch_query.py` against its natural-language
specification.

The program is modelled by a shallow embedding:

* Python `dict[str, str]` values are insertion-ordered association lists
  (`PyDict`) whose update operation `pySet` replaces the value of an
  existing key in place (keeping its position) and appends a fresh key at
  the end — exactly CPython's dict semantics.
* The boto3 remote boundary (`start_query` / `get_query_results`) is a
  parameter: each log group is mapped to a `GroupEvent` describing what
  the remote service does for that group (submission rejected with a
  `ClientError`, or a query id together with the finite sequence of
  status fetches the polling loop will observe).
* Exceptions are values: `PyError.clientError` models
  `botocore.exceptions.ClientError` and `PyError.runtimeError` models
  `RuntimeError`.  The `except ClientError` handler of `main` catches
  exactly the errors with `PyError.isClientError = true`.
* `datetime.strptime` with format `"%Y-%m-%d %H:%M:%S"` is modelled by
  the character-level matcher CPython's `_strptime` builds for that
  format (regex alternatives in their priority order, whitespace in the
  format matching one or more whitespace characters), followed by the
  `datetime` constructor's range checks.
* A naive `datetime` value is identified by its proleptic-Gregorian
  ordinal (`ymd2ord`, as in `datetime.py`) and its seconds within the
  day; `datetime + timedelta(hours=5)` and `datetime` comparison are the
  corresponding operations on this pair, and
  `int(dt.replace(tzinfo=timezone.utc).timestamp())` is
  `(ordinal - 719163) * 86400 + seconds_in_day`.
* `json.dump(data, ensure_ascii=False, indent=2)` is reproduced as text
  (including the escape table of `json.encoder` and the indent-2
  layout), and `json.loads` for documents of the produced shape
  (object of arrays of flat string objects) is a character-level parser
  that skips whitespace, decodes string escapes and builds dicts from
  key/value pairs exactly as `json.decoder` does (later duplicate key
  wins).
-/

namespace CloudwatchQuery

/-! ### Python dicts as insertion-ordered association lists -/

/-- A Python `dict[str, str]`: insertion-ordered key/value pairs. -/
abbrev PyDict := List (String × String)

/-- The keys of a dict, in insertion order (`d.keys()`). -/
def pyKeys {α : Type} (d : List (String × α)) : List String := d.map Prod.fst

/-- Assignment `d[k] = v`: replace the value of an existing key in place, otherwise
append the new pair at the end — CPython dict assignment. -/
def pySet {α : Type} (d : List (String × α)) (k : String) (v : α) :
    List (String × α) :=
  if k ∈ pyKeys d then d.map (fun p => if p.1 = k then (k, v) else p)
  else d ++ [(k, v)]

/-- Constructor `dict(pairs)`: build a dict from a pair list, later duplicates
overwriting earlier ones in place. -/
def pyFromPairs {α : Type} (l : List (String × α)) : List (String × α) :=
  l.foldl (fun d p => pySet d p.1 p.2) []

/-- Lookup `d.get(k)`: the value of the first (with unique keys: the only)
pair carrying key `k`. -/
def pyGet {α : Type} (d : List (String × α)) (k : String) : Option α :=
  match d with
  | [] => none
  | p :: ps => if p.1 = k then some p.2 else pyGet ps k

/-! ### The raw result rows of the logs service

`get_query_results` returns `results` as a list of rows, each row a list
of cells `{"field": ..., "value": ...}`. -/

/-- One cell of a raw result row. -/
structure ResultCell where
  field : String
  value : String
deriving DecidableEq

/-- A raw result row list as returned by the service. -/
abbrev RawResults := List (List ResultCell)

/-- Function `flatten` (source lines 77-79):
`[{c["field"]: c["value"] for c in row} for row in results]`. -/
def flatten (results : RawResults) : List PyDict :=
  results.map (fun row => row.foldl (fun d c => pySet d c.field c.value) [])

/-- The value of the last cell of `row` carrying field name `k`
(CPython dict comprehensions keep the last value of a duplicated key). -/
def lastFieldValue (row : List ResultCell) (k : String) : Option String :=
  (row.reverse.find? (fun c => c.field == k)).map ResultCell.value

/-! ### Exceptions -/

/-- The two exception kinds the program can meet at the remote boundary:
`botocore.exceptions.ClientError` and the `RuntimeError` raised by
`wait_results`. -/
inductive PyError where
  | clientError (msg : String)
  | runtimeError (msg : String)
deriving DecidableEq

/-- Which exceptions the `except ClientError` handler of `main` catches. -/
def PyError.isClientError : PyError → Bool
  | .clientError _ => true
  | .runtimeError _ => false

/-! ### The result poller (`wait_results`, source lines 66-74) -/

/-- One reaction of `logs.get_query_results` to a poll: either a response
with a status string and a result row list, or a raised `ClientError`. -/
inductive FetchStep where
  | resp (status : String) (results : RawResults)
  | raiseClientError (msg : String)
deriving DecidableEq

/-- Function `wait_results`, driven by the finite list of fetch reactions the
remote service will produce.  Returns `none` when the list is exhausted
with the query still running — the loop is unbounded and the process
would keep polling forever.  Otherwise returns the number of
`time.sleep(poll_interval)` calls performed together with either the raw
results (status `Complete`) or the raised exception: a `RuntimeError`
mentioning the terminal state for `Cancelled`/`Failed`/`Timeout`, or the
`ClientError` that `get_query_results` itself raised. -/
def wait_results (query_id : String) : List FetchStep → Nat →
    Option (Nat × Except PyError RawResults)
  | [], _ => none
  | .raiseClientError msg :: _, sleeps =>
      some (sleeps, .error (.clientError msg))
  | .resp status results :: rest, sleeps =>
      if status = "Complete" then some (sleeps, .ok results)
      else if status = "Cancelled" ∨ status = "Failed" ∨ status = "Timeout" then
        some (sleeps, .error (.runtimeError
          ("Consulta " ++ query_id ++ " terminó con estado " ++ status)))
      else wait_results query_id rest (sleeps + 1)

/-! ### The per-group loop of `main` (source lines 172-181) -/

/-- What the remote service does for one log group: reject the
`start_query` submission with a `ClientError`, or accept it (returning a
query id) and then answer the polls with the given fetch reactions. -/
inductive GroupEvent where
  | submitError (msg : String)
  | submitOk (queryId : String) (steps : List FetchStep)
deriving DecidableEq

/-- The body of the `try:` block for one group: submit, poll, flatten.
`none` models the unbounded polling loop never terminating. -/
def runGroupBody : GroupEvent → Option (Except PyError (List PyDict))
  | .submitError msg => some (.error (.clientError msg))
  | .submitOk qid steps =>
      (wait_results qid steps 0).map (fun r => r.2.map flatten)

/-- Observable outcome of the per-group loop. -/
structure LoopResult where
  /-- `salida_total`: the per-group flattened rows accumulated so far
  (on an uncaught exception, the dict held at the moment the loop died). -/
  aggregate : List (String × List PyDict)
  /-- The log groups whose loop body was entered (a `start_query` call
  was made for each of them). -/
  issued : List String
  /-- An exception that escaped the `except ClientError` handler,
  if any: it aborts `main`. -/
  uncaught : Option PyError
deriving DecidableEq

/-- The `for lg in LOG_GROUPS` loop: a `ClientError` is caught (the
group is skipped and the loop continues), any other exception escapes
and ends the loop. `none` models a never-terminating poll. -/
def runGroups (remote : String → GroupEvent) : List String → Option LoopResult
  | [] => some ⟨[], [], none⟩
  | lg :: rest =>
      match runGroupBody (remote lg) with
      | none => none
      | some (.ok rows) =>
          (runGroups remote rest).map
            (fun r => ⟨(lg, rows) :: r.aggregate, lg :: r.issued, r.uncaught⟩)
      | some (.error e) =>
          if e.isClientError then
            (runGroups remote rest).map
              (fun r => ⟨r.aggregate, lg :: r.issued, r.uncaught⟩)
          else some ⟨[], [lg], some e⟩

/-- The hardcoded log group list (source lines 31-36; one entry is
commented out in the source). -/
def LOG_GROUPS : List String :=
  ["/aws/lambda/bm-qrec-api-redeban",
   "/aws/lambda/bm-qrec-authorizer",
   "/aws/lambda/bm-qrec-do-transaction"]

/-! ### Naive datetimes (`datetime.datetime`, proleptic Gregorian)

Helper functions follow `Lib/datetime.py` (`_is_leap`,
`_days_before_year`, `_days_before_month`, `_ymd2ord`). -/

/-- Predicate `_is_leap` of `datetime.py`. -/
def isLeapYear (y : Nat) : Bool := (y % 4 = 0 && y % 100 ≠ 0) || y % 400 = 0

/-- Cumulative day counts before each month in a non-leap year
(`_DAYS_BEFORE_MONTH`). -/
def daysBeforeMonthTable : Nat → Nat
  | 1 => 0 | 2 => 31 | 3 => 59 | 4 => 90 | 5 => 120 | 6 => 151
  | 7 => 181 | 8 => 212 | 9 => 243 | 10 => 273 | 11 => 304 | 12 => 334
  | _ => 0

/-- Month lengths in a non-leap year (`_DAYS_IN_MONTH`). -/
def daysInMonthTable : Nat → Nat
  | 1 => 31 | 2 => 28 | 3 => 31 | 4 => 30 | 5 => 31 | 6 => 30
  | 7 => 31 | 8 => 31 | 9 => 30 | 10 => 31 | 11 => 30 | 12 => 31
  | _ => 0

/-- Function `_days_in_month` of `datetime.py`. -/
def daysInMonth (y m : Nat) : Nat :=
  if m = 2 ∧ isLeapYear y then 29 else daysInMonthTable m

/-- Function `_days_before_year`: days before January 1st of year `y`. -/
def daysBeforeYear (y : Nat) : Nat :=
  (y - 1) * 365 + (y - 1) / 4 - (y - 1) / 100 + (y - 1) / 400

/-- Function `_days_before_month` of `datetime.py`. -/
def daysBeforeMonth (y m : Nat) : Nat :=
  daysBeforeMonthTable m + (if 2 < m ∧ isLeapYear y then 1 else 0)

/-- Function `_ymd2ord`: proleptic-Gregorian ordinal of a date,
with `ymd2ord 1 1 1 = 1`. -/
def ymd2ord (y m d : Nat) : Nat := daysBeforeYear y + daysBeforeMonth y m + d

/-- A naive `datetime` as constructed by `strptime`: validated calendar
components. -/
structure PyDatetime where
  year : Nat
  month : Nat
  day : Nat
  hour : Nat
  minute : Nat
  second : Nat
deriving DecidableEq

/-- Method `datetime.toordinal()`. -/
def PyDatetime.toordinal (dt : PyDatetime) : Nat :=
  ymd2ord dt.year dt.month dt.day

/-- A naive datetime value identified by its day ordinal and its seconds
within the day.  For datetimes with valid components this identification
is bijective, and `datetime + timedelta`, `datetime` comparison and
`timestamp()` all factor through it (CPython implements `+` via
`toordinal`/`fromordinal`). -/
structure NaiveInstant where
  ordinal : Nat
  sod : Nat
deriving DecidableEq

/-- The instant a `datetime` denotes. -/
def PyDatetime.toInstant (dt : PyDatetime) : NaiveInstant :=
  ⟨dt.toordinal, dt.hour * 3600 + dt.minute * 60 + dt.second⟩

/-- Addition `dt + timedelta(seconds = n)` (CPython normalizes the seconds into
the day ordinal via `divmod`). -/
def addSeconds (t : NaiveInstant) (n : Nat) : NaiveInstant :=
  ⟨t.ordinal + (t.sod + n) / 86400, (t.sod + n) % 86400⟩

/-- Total second count used for `datetime` comparison (component-wise
lexicographic comparison of valid datetimes agrees with it). -/
def totalSeconds (t : NaiveInstant) : Nat := t.ordinal * 86400 + t.sod

/-- Function `to_epoch` (source lines 48-49):
`int(dt.replace(tzinfo=timezone.utc).timestamp())`.  The ordinal of
1970-01-01 is 719163. -/
def to_epoch (t : NaiveInstant) : Int :=
  ((t.ordinal : Int) - 719163) * 86400 + (t.sod : Int)

/-! ### `datetime.strptime` with format `"%Y-%m-%d %H:%M:%S"`

CPython's `_strptime` compiles the format into a regex
`(?P<Y>\d\d\d\d)-(?P<m>1[0-2]|0[1-9]|[1-9])-(?P<d>3[01]|[12]\d|0[1-9]|[1-9])\s+`
`(?P<H>2[0-3]|[0-1]\d|\d):(?P<M>[0-5]\d|\d):(?P<S>6[01]|[0-5]\d|\d)`
(whitespace in the format becomes `\s+`), requires the match to cover
the whole input, then calls the `datetime` constructor which range
checks the components.  Each directive below returns its candidate
matches in the regex's alternation priority order, and the sequencing
backtracks through candidate lists exactly as the regex engine does. -/

/-- Numeric value of a decimal digit character. -/
def dval (c : Char) : Nat := c.toNat - 48

/-- Candidate matches of a two-character alternative. -/
def try2 (p : Char → Char → Bool) (v : Char → Char → Nat) :
    List Char → List (Nat × List Char)
  | a :: b :: rest => if p a b then [(v a b, rest)] else []
  | _ => []

/-- Candidate matches of a one-character alternative. -/
def try1 (p : Char → Bool) (v : Char → Nat) :
    List Char → List (Nat × List Char)
  | a :: rest => if p a then [(v a, rest)] else []
  | _ => []

/-- Two-digit numeric value. -/
def dval2 (a b : Char) : Nat := dval a * 10 + dval b

/-- Directive `%Y`: exactly four digits. -/
def matchYear : List Char → List (Nat × List Char)
  | a :: b :: c :: d :: rest =>
      if a.isDigit && b.isDigit && c.isDigit && d.isDigit then
        [(((dval a * 10 + dval b) * 10 + dval c) * 10 + dval d, rest)]
      else []
  | _ => []

/-- Directive `%m`: `1[0-2]|0[1-9]|[1-9]`. -/
def matchMonth (l : List Char) : List (Nat × List Char) :=
  try2 (fun a b => (a = '1' && '0' ≤ b && b ≤ '2') ||
                   (a = '0' && '1' ≤ b && b ≤ '9')) dval2 l ++
  try1 (fun a => '1' ≤ a && a ≤ '9') dval l

/-- Directive `%d`: `3[01]|[12]\d|0[1-9]|[1-9]`. -/
def matchDay (l : List Char) : List (Nat × List Char) :=
  try2 (fun a b => (a = '3' && '0' ≤ b && b ≤ '1') ||
                   (('1' ≤ a && a ≤ '2') && b.isDigit) ||
                   (a = '0' && '1' ≤ b && b ≤ '9')) dval2 l ++
  try1 (fun a => '1' ≤ a && a ≤ '9') dval l

/-- Directive `%H`: `2[0-3]|[0-1]\d|\d`. -/
def matchHour (l : List Char) : List (Nat × List Char) :=
  try2 (fun a b => (a = '2' && '0' ≤ b && b ≤ '3') ||
                   (('0' ≤ a && a ≤ '1') && b.isDigit)) dval2 l ++
  try1 Char.isDigit dval l

/-- Directive `%M`: `[0-5]\d|\d`. -/
def matchMinute (l : List Char) : List (Nat × List Char) :=
  try2 (fun a b => ('0' ≤ a && a ≤ '5') && b.isDigit) dval2 l ++
  try1 Char.isDigit dval l

/-- Directive `%S`: `6[01]|[0-5]\d|\d`. -/
def matchSecond (l : List Char) : List (Nat × List Char) :=
  try2 (fun a b => (a = '6' && '0' ≤ b && b ≤ '1') ||
                   (('0' ≤ a && a ≤ '5') && b.isDigit)) dval2 l ++
  try1 Char.isDigit dval l

/-- A literal character of the format. -/
def matchLit (c : Char) : List Char → List (List Char)
  | a :: rest => if a = c then [rest] else []
  | _ => []

/-- Whitespace characters of regex `\s`. -/
def isWsChar (c : Char) : Bool :=
  c = ' ' || c = '\t' || c = '\n' || c = '\x0b' || c = '\x0c' || c = '\r'

/-- Pattern for the format's space (one or more whitespace characters): one or more whitespace characters.
The match is greedy; since every directive that can follow starts with a
non-whitespace character, only the maximal munch can succeed, so a
single candidate is faithful. -/
def matchWs : List Char → List (List Char)
  | a :: rest =>
      if isWsChar a then
        match rest with
        | b :: _ => if isWsChar b then matchWs rest else [rest]
        | [] => [rest]
      else []
  | _ => []

/-- The full pattern match for `"%Y-%m-%d %H:%M:%S"`: all parses of the
entire input, in regex priority order. -/
def strptimeCandidates (s : List Char) :
    List (Nat × Nat × Nat × Nat × Nat × Nat) :=
  (matchYear s).flatMap fun (y, r1) =>
  (matchLit '-' r1).flatMap fun r2 =>
  (matchMonth r2).flatMap fun (mo, r3) =>
  (matchLit '-' r3).flatMap fun r4 =>
  (matchDay r4).flatMap fun (d, r5) =>
  (matchWs r5).flatMap fun r6 =>
  (matchHour r6).flatMap fun (h, r7) =>
  (matchLit ':' r7).flatMap fun r8 =>
  (matchMinute r8).flatMap fun (mi, r9) =>
  (matchLit ':' r9).flatMap fun r10 =>
  (matchSecond r10).flatMap fun (se, r11) =>
  if r11 = [] then [(y, mo, d, h, mi, se)] else []

/-- The `datetime(year, month, day, hour, minute, second)` constructor's
range checks (`MINYEAR = 1`, `MAXYEAR = 9999`; day checked against the
month's length; second at most 59). -/
def datetimeCtor (y mo d h mi se : Nat) : Option PyDatetime :=
  if 1 ≤ y ∧ y ≤ 9999 ∧ 1 ≤ mo ∧ mo ≤ 12 ∧ 1 ≤ d ∧ d ≤ daysInMonth y mo ∧
     h ≤ 23 ∧ mi ≤ 59 ∧ se ≤ 59
  then some ⟨y, mo, d, h, mi, se⟩ else none

/-- Function `parse_cli_time` (source lines 52-53):
`datetime.strptime(f"{date_str} {time_str}", "%Y-%m-%d %H:%M:%S")`.
`none` models the `ValueError` raised on a failed match or by the
constructor's range checks. -/
def parse_cli_time (date_str time_str : String) : Option PyDatetime :=
  match strptimeCandidates (date_str ++ " " ++ time_str).data with
  | [] => none
  | (y, mo, d, h, mi, se) :: _ => datetimeCtor y mo d h mi se

/-! ### `json.dump(data, ensure_ascii=False, indent=2)` as text

The aggregated result set has the fixed shape
object → array → object → string, so the renderer is written level by
level.  Escaping follows `json.encoder.py_encode_basestring`: only `"`,
`\` and control characters below `0x20` are escaped (`ensure_ascii`
false), the latter as `\uXXXX` with lowercase hex unless one of the
shorthand escapes applies. -/

/-- Lowercase hexadecimal digit. -/
def hexDig (n : Nat) : Char :=
  if n < 10 then Char.ofNat (48 + n) else Char.ofNat (87 + n)

/-- Four lowercase hex digits (`"\u%04x"`). -/
def hex4 (n : Nat) : List Char :=
  [hexDig (n / 4096 % 16), hexDig (n / 256 % 16), hexDig (n / 16 % 16),
   hexDig (n % 16)]

/-- Table `ESCAPE_DCT` of `json.encoder` for one character. -/
def escapeChar (c : Char) : List Char :=
  if c = '"' then ['\\', '"']
  else if c = '\\' then ['\\', '\\']
  else if c = '\x08' then ['\\', 'b']
  else if c = '\x0c' then ['\\', 'f']
  else if c = '\n' then ['\\', 'n']
  else if c = '\r' then ['\\', 'r']
  else if c = '\t' then ['\\', 't']
  else if c.toNat < 32 then '\\' :: 'u' :: hex4 c.toNat
  else [c]

/-- Escape a character list. -/
def escapeChars (l : List Char) : List Char := l.flatMap escapeChar

/-- A JSON string literal. -/
def renderStrC (s : String) : List Char :=
  '"' :: escapeChars s.data ++ ['"']

/-- Indentation of `n` spaces. -/
def spacesC (n : Nat) : List Char := List.replicate n ' '

/-- One `"key": "value"` member. -/
def renderPairC (p : String × String) : List Char :=
  renderStrC p.1 ++ ':' :: ' ' :: renderStrC p.2

/-- The members of a flat string object, one per line at indentation
`i`, separated by `",\n"`. -/
def renderMembersC (i : Nat) : List (String × String) → List Char
  | [] => []
  | [p] => spacesC i ++ renderPairC p
  | p :: q :: rest =>
      spacesC i ++ renderPairC p ++ ',' :: '\n' :: renderMembersC i (q :: rest)

/-- A flat string object whose closing brace is indented by `i`
(members by `i + 2`); `json.dump` writes an empty object inline. -/
def renderInnerC (i : Nat) (obj : List (String × String)) : List Char :=
  match obj with
  | [] => ['\x7b', '\x7d']
  | _ => '\x7b' :: '\n' :: renderMembersC (i + 2) obj ++
         '\n' :: (spacesC i ++ ['\x7d'])

/-- The elements of a row array, one per line at indentation `i`. -/
def renderElemsC (i : Nat) : List PyDict → List Char
  | [] => []
  | [r] => spacesC i ++ renderInnerC i r
  | r :: s :: rest =>
      spacesC i ++ renderInnerC i r ++ ',' :: '\n' :: renderElemsC i (s :: rest)

/-- A row array whose closing bracket is indented by `i`
(elements by `i + 2`). -/
def renderArrC (i : Nat) (rows : List PyDict) : List Char :=
  match rows with
  | [] => ['[', ']']
  | _ => '[' :: '\n' :: renderElemsC (i + 2) rows ++
         '\n' :: (spacesC i ++ [']'])

/-- The members of the top-level object: `"group": <array>` at
indentation 2. -/
def renderTopMembersC : List (String × List PyDict) → List Char
  | [] => []
  | [g] => spacesC 2 ++ renderStrC g.1 ++ ':' :: ' ' :: renderArrC 2 g.2
  | g :: h :: rest =>
      spacesC 2 ++ renderStrC g.1 ++ ':' :: ' ' :: renderArrC 2 g.2 ++
      ',' :: '\n' :: renderTopMembersC (h :: rest)

/-- Serialization `json.dump(data, f, ensure_ascii=False, indent=2)`: the full
document text. -/
def jsonDumpC (data : List (String × List PyDict)) : List Char :=
  match data with
  | [] => ['\x7b', '\x7d']
  | _ => '\x7b' :: '\n' :: renderTopMembersC data ++ '\n' :: ['\x7d']

/-- The document as a `String`. -/
def jsonDumpIndent2 (data : List (String × List PyDict)) : String :=
  String.mk (jsonDumpC data)

/-- Serialization `json.dumps(rows, indent=2, ensure_ascii=False)` of a row list
(the Reporter's fallback text). -/
def jsonDumpsRows (rows : List PyDict) : String :=
  String.mk (renderArrC 0 rows)

/-! ### `json.loads` for documents of the produced shape

A character-level parser: JSON whitespace is skipped, string literals
are decoded (strict mode: raw control characters are rejected), each
object's members are collected into a dict as `json.decoder` does.  The
member/element loops carry fuel derived from the input length (every
loop iteration consumes at least one input character, so this fuel never
runs out on a parse that would succeed). -/

/-- JSON whitespace (`json.decoder` skips `' '`, `'\t'`, `'\n'`,
`'\r'`). -/
def isJsonWs (c : Char) : Bool :=
  c = ' ' || c = '\t' || c = '\n' || c = '\r'

/-- Skip JSON whitespace. -/
def skipWs : List Char → List Char
  | [] => []
  | c :: cs => if isJsonWs c then skipWs cs else c :: cs

/-- Value of one hex digit, upper or lower case. -/
def hexVal (c : Char) : Option Nat :=
  if '0' ≤ c ∧ c ≤ '9' then some (c.toNat - 48)
  else if 'a' ≤ c ∧ c ≤ 'f' then some (c.toNat - 87)
  else if 'A' ≤ c ∧ c ≤ 'F' then some (c.toNat - 55)
  else none

/-- The shorthand string escapes of JSON. -/
def decodeShortEsc (c : Char) : Option Char :=
  if c = '"' then some '"'
  else if c = '\\' then some '\\'
  else if c = '/' then some '/'
  else if c = 'b' then some '\x08'
  else if c = 'f' then some '\x0c'
  else if c = 'n' then some '\n'
  else if c = 'r' then some '\r'
  else if c = 't' then some '\t'
  else none

/-- Scan a string literal body up to its closing quote, decoding
escapes.  Lone `\uXXXX` escapes in the surrogate range are rejected
(they denote no Unicode scalar; the renderer never writes them). -/
def scanStr : List Char → Option (List Char × List Char)
  | [] => none
  | c :: cs =>
      if c = '"' then some ([], cs)
      else if c = '\\' then
        match cs with
        | [] => none
        | e :: cs' =>
            if e = 'u' then
              match cs' with
              | h1 :: h2 :: h3 :: h4 :: cs'' =>
                  match hexVal h1, hexVal h2, hexVal h3, hexVal h4 with
                  | some a, some b, some c2, some d =>
                      let n := ((a * 16 + b) * 16 + c2) * 16 + d
                      if h : n.isValidChar then
                        (scanStr cs'').map
                          (fun r => (Char.ofNatAux n h :: r.1, r.2))
                      else none
                  | _, _, _, _ => none
              | _ => none
            else
              match decodeShortEsc e with
              | some d => (scanStr cs').map (fun r => (d :: r.1, r.2))
              | none => none
      else if c.toNat < 32 then none
      else (scanStr cs).map (fun r => (c :: r.1, r.2))

/-- Parse a string literal (opening quote expected first). -/
def parseStr : List Char → Option (String × List Char)
  | [] => none
  | c :: cs =>
      if c = '"' then (scanStr cs).map (fun r => (String.mk r.1, r.2))
      else none

/-- Expect one specific character. -/
def expectChar (c : Char) : List Char → Option (List Char)
  | [] => none
  | x :: xs => if x = c then some xs else none

/-- The member loop of a flat string object, positioned at a key's
opening quote. -/
def innerMembers : Nat → List Char → Option (List (String × String) × List Char)
  | 0, _ => none
  | fuel + 1, l =>
      match parseStr l with
      | none => none
      | some (k, r1) =>
          match expectChar ':' (skipWs r1) with
          | none => none
          | some r2 =>
              match parseStr (skipWs r2) with
              | none => none
              | some (v, r3) =>
                  match skipWs r3 with
                  | ',' :: r4 =>
                      (innerMembers fuel (skipWs r4)).map
                        (fun r => ((k, v) :: r.1, r.2))
                  | '\x7d' :: r4 => some ([(k, v)], r4)
                  | _ => none

/-- Parse a flat string object, building the dict from the member pairs
as `json.decoder` does (`dict(pairs)`; the next character decides
between the empty object and the member loop). -/
def parseInnerObj (l : List Char) : Option (PyDict × List Char) :=
  match expectChar '\x7b' l with
  | none => none
  | some r =>
      let l1 := skipWs r
      if l1.headD ' ' = '\x7d' then some ([], l1.tail)
      else (innerMembers (l1.length + 1) l1).map
        (fun r2 => (pyFromPairs r2.1, r2.2))

/-- The element loop of a row array, positioned at an element's opening
brace. -/
def arrayElems : Nat → List Char → Option (List PyDict × List Char)
  | 0, _ => none
  | fuel + 1, l =>
      match parseInnerObj l with
      | none => none
      | some (r0, r1) =>
          match skipWs r1 with
          | ',' :: r2 =>
              (arrayElems fuel (skipWs r2)).map (fun r => (r0 :: r.1, r.2))
          | ']' :: r2 => some ([r0], r2)
          | _ => none

/-- Parse a row array. -/
def parseRowArray (l : List Char) : Option (List PyDict × List Char) :=
  match expectChar '[' l with
  | none => none
  | some r =>
      let l1 := skipWs r
      if l1.headD ' ' = ']' then some ([], l1.tail)
      else arrayElems (l1.length + 1) l1

/-- The member loop of the top-level object. -/
def topMembers : Nat → List Char →
    Option (List (String × List PyDict) × List Char)
  | 0, _ => none
  | fuel + 1, l =>
      match parseStr l with
      | none => none
      | some (k, r1) =>
          match expectChar ':' (skipWs r1) with
          | none => none
          | some r2 =>
              match parseRowArray (skipWs r2) with
              | none => none
              | some (v, r3) =>
                  match skipWs r3 with
                  | ',' :: r4 =>
                      (topMembers fuel (skipWs r4)).map
                        (fun r => ((k, v) :: r.1, r.2))
                  | '\x7d' :: r4 => some ([(k, v)], r4)
                  | _ => none

/-- Parse the top-level object. -/
def parseTopObj (l : List Char) : Option (List (String × List PyDict) × List Char) :=
  match expectChar '\x7b' l with
  | none => none
  | some r =>
      let l1 := skipWs r
      if l1.headD ' ' = '\x7d' then some ([], l1.tail)
      else topMembers (l1.length + 1) l1

/-- Deserialization `json.loads` for a document of the persisted shape: parse the
top-level object, build the top-level dict from its pairs, and require
only whitespace after it. -/
def json_loads (s : String) : Option (List (String × List PyDict)) :=
  match parseTopObj (skipWs s.data) with
  | none => none
  | some (d, rest) => if skipWs rest = [] then some (pyFromPairs d) else none

/-! ### The Persister (`save_results`, source lines 95-131) -/

/-- Attribute `pathlib.PurePath.suffix`: the extension of the final path
component (trailing slashes stripped) from its last dot, empty when the
dot is missing, leading or trailing. -/
def pathSuffix (p : String) : String :=
  let cs := ((p.data.reverse.dropWhile (fun c => c = '/')).takeWhile
    (fun c => c ≠ '/')).reverse
  match (cs.reverse.takeWhile (fun c => c ≠ '.')).length with
  | 0 => ""      -- name ends in a dot
  | n =>
    if n = cs.length then ""     -- no dot at all
    else if n + 1 = cs.length then ""  -- only a leading dot
    else String.mk (cs.drop (cs.length - (n + 1)))

/-- Method `str.lower()` restricted to the ASCII suffixes compared against. -/
def pyLower (s : String) : String := String.mk (s.data.map Char.toLower)

/-- The flattened `all_rows` list of the CSV branch: every row of every
group, with `log_group` injected into a copy of the row. -/
def csvAllRows (data : List (String × List PyDict)) : List PyDict :=
  data.flatMap (fun g => g.2.map (fun r => pySet r "log_group" g.1))

/-- Lexicographic comparison of character lists by code point — the
order CPython's `str` comparison uses. -/
def charListLe : List Char → List Char → Bool
  | [], _ => true
  | _ :: _, [] => false
  | a :: as, b :: bs =>
      if a.toNat < b.toNat then true
      else if b.toNat < a.toNat then false
      else charListLe as bs

/-- CPython's `str` ≤ (code-point lexicographic). -/
def pyStrLe (a b : String) : Bool := charListLe a.data b.data

/-- The sorted union of all keys of `all_rows`
(`sorted({k for row in all_rows for k in row.keys()})`). -/
def csvFieldnames (all_rows : List PyDict) : List String :=
  ((all_rows.flatMap pyKeys).dedup).insertionSort
    (fun a b => pyStrLe a b = true)

/-- One CSV data record: the row's value for each field name, the empty
string where the row has no such key (`csv.DictWriter` with
`restval=''`). -/
def csvRecord (fieldnames : List String) (r : PyDict) : List String :=
  fieldnames.map (fun k => (pyGet r k).getD "")

/-- Outcome of `save_results`: which file contents were written, or
which message was printed instead of writing. -/
inductive SaveOutcome where
  | savedJson (text : String)
  | savedCsv (header : List String) (records : List (List String))
  | nothingToSave
  | unsupported (suffix : String)
deriving DecidableEq

/-- Function `save_results(data, file_path)`. -/
def save_results (data : List (String × List PyDict)) (file_path : String) :
    SaveOutcome :=
  let suffix := pyLower (pathSuffix file_path)
  if suffix = ".json" then .savedJson (jsonDumpIndent2 data)
  else if suffix = ".csv" then
    let all_rows := csvAllRows data
    if all_rows = [] then .nothingToSave
    else
      let fieldnames := csvFieldnames all_rows
      .savedCsv fieldnames (all_rows.map (csvRecord fieldnames))
  else .unsupported suffix

/-! ### The Reporter (`pretty_print`, source lines 82-91)

The `tabulate` call is commented out in the source; when the import
succeeds the non-empty branch prints nothing, and only when the import
fails does the `except ImportError` fallback print the rows as JSON. -/

/-- The lines `pretty_print` writes to the console, as a function of
whether `tabulate` is importable. -/
def pretty_print (tabulateAvailable : Bool) (rows : List PyDict) :
    List String :=
  if rows = [] then ["No se encontraron eventos."]
  else if tabulateAvailable then []
  else [jsonDumpsRows rows]

/-! ### The Orchestrator (`main`, source lines 149-185) -/

/-- The parsed command line. -/
structure CliArgs where
  fecha_ini : String
  hora_ini : String
  fecha_fin : Option String
  hora_fin : Option String
  out : Option String
deriving DecidableEq

/-- The time window computed inside `main`'s `try:` block: the start is
the parsed start plus `timedelta(hours=5)`; the end is the parsed end
plus five hours when both end arguments are present and non-empty
(Python truthiness), else `datetime.now()`.  `none` models the caught
`ValueError` path. -/
def mainWindow (args : CliArgs) (now : NaiveInstant) :
    Option (NaiveInstant × NaiveInstant) :=
  match parse_cli_time args.fecha_ini args.hora_ini with
  | none => none
  | some sdt =>
      let start_dt := addSeconds sdt.toInstant 18000
      match args.fecha_fin, args.hora_fin with
      | some fd, some hd =>
          if fd ≠ "" ∧ hd ≠ "" then
            match parse_cli_time fd hd with
            | none => none
            | some edt => some (start_dt, addSeconds edt.toInstant 18000)
          else some (start_dt, now)
      | _, _ => some (start_dt, now)

/-- Observable outcome of one program run. -/
structure MainResult where
  exitCode : Nat
  /-- The log groups for which the loop body ran (`start_query` was
  called). -/
  issued : List String
  /-- The `save_results` outcome when it was called, `none` when it was
  not (no `--out`, early exit, or crash). -/
  saved : Option SaveOutcome
deriving DecidableEq

/-- Function `main()`, driven by the wall clock (`now`) and the remote service's
behaviour per log group.  `none` models a run that never terminates
(unbounded polling). -/
def mainRun (args : CliArgs) (now : NaiveInstant)
    (remote : String → GroupEvent) : Option MainResult :=
  match mainWindow args now with
  | none => some ⟨1, [], none⟩
  | some (start_dt, end_dt) =>
      if totalSeconds end_dt ≤ totalSeconds start_dt then some ⟨1, [], none⟩
      else
        (runGroups remote LOG_GROUPS).map fun r =>
          match r.uncaught with
          | some _ => ⟨1, r.issued, none⟩
          | none =>
              ⟨0, r.issued,
               match args.out with
               | some o => if o ≠ "" then some (save_results r.aggregate o) else none
               | none => none⟩

/-- A remote-service behaviour in which the second log group's query
reaches the terminal state `Failed` while the other groups complete
immediately with no rows. -/
def failingRemote : String → GroupEvent := fun lg =>
  if lg = "/aws/lambda/bm-qrec-authorizer" then
    .submitOk "q2" [.resp "Running" [], .resp "Failed" []]
  else .submitOk "q" [.resp "Complete" []]

/-- The start epoch `main` computes:
`to_epoch(parse_cli_time(fecha_ini, hora_ini) + timedelta(hours=5))`
(source lines 153 and 167). -/
def startEpoch (d t : String) : Option Int :=
  (parse_cli_time d t).map (fun dt => to_epoch (addSeconds dt.toInstant 18000))

/-- Deserialization `json.loads` for a document that is a row array (the shape the
Reporter's fallback prints). -/
def jsonLoadsRowsDoc (s : String) : Option (List PyDict) :=
  match parseRowArray (skipWs s.data) with
  | none => none
  | some (rows, rest) => if skipWs rest = [] then some rows else none

/-! ### A store-passing model of the CSV row copies (for the frame
property of `save_results`)

Row dicts live in a store of cells addressed by allocation order; the
aggregate maps each group to the addresses of its row dicts.  The CSV
branch's loop `r = r.copy(); r["log_group"] = lg; all_rows.append(r)`
allocates a fresh cell holding a copy and performs the key assignment on
that fresh cell. -/

/-- A store of row dicts. -/
structure Store where
  cells : List PyDict
deriving DecidableEq

/-- Read the dict at an address. -/
def Store.read (s : Store) (a : Nat) : PyDict := s.cells.getD a []

/-- Allocate a fresh cell. -/
def Store.alloc (s : Store) (r : PyDict) : Store × Nat :=
  (⟨s.cells ++ [r]⟩, s.cells.length)

/-- Overwrite the cell at an address. -/
def Store.write (s : Store) (a : Nat) (r : PyDict) : Store :=
  ⟨s.cells.set a r⟩

/-- The CSV branch's collection loop over one group's row addresses. -/
def csvCollectGroup (lg : String) : List Nat → Store → Store × List Nat
  | [], s => (s, [])
  | a :: as, s =>
      let (s1, a') := s.alloc (s.read a)
      let s2 := s1.write a' (pySet (s1.read a') "log_group" lg)
      let (s3, rest) := csvCollectGroup lg as s2
      (s3, a' :: rest)

/-- The CSV branch's collection loop over all groups: returns the final
store and the addresses of `all_rows`. -/
def csvCollectAll : List (String × List Nat) → Store → Store × List Nat
  | [], s => (s, [])
  | g :: gs, s =>
      let (s1, addrs) := csvCollectGroup g.1 g.2 s
      let (s2, rest) := csvCollectAll gs s1
      (s2, addrs ++ rest)

/-! ## Lemmas about the dict model -/

theorem mem_pyKeys_cons {α : Type} {p : String × α} {ps : List (String × α)}
    {k : String} : k ∈ pyKeys (p :: ps) ↔ k = p.1 ∨ k ∈ pyKeys ps := by
  simp [pyKeys]

theorem pyGet_eq_none_of_not_mem {α : Type} {d : List (String × α)}
    {k : String} (hk : k ∉ pyKeys d) : pyGet d k = none := by
  induction d with
  | nil => rfl
  | cons p ps ih =>
      have hp : ¬ p.1 = k := fun hh => hk (mem_pyKeys_cons.mpr (Or.inl hh.symm))
      have hmem : k ∉ pyKeys ps := fun hh => hk (mem_pyKeys_cons.mpr (Or.inr hh))
      simp [pyGet, hp, ih hmem]

theorem pyGet_map_replace_ne {α : Type} (d : List (String × α)) (k k' : String)
    (v : α) (hne : k' ≠ k) :
    pyGet (d.map (fun p => if p.1 = k then (k, v) else p)) k' = pyGet d k' := by
  induction d with
  | nil => rfl
  | cons p ps ih =>
      simp only [List.map_cons]
      by_cases hp : p.1 = k
      · rw [if_pos hp]
        have hkk' : ¬ (k = k') := fun h => hne h.symm
        have hpk' : ¬ (p.1 = k') := hp ▸ hkk'
        show (if k = k' then some v else
          pyGet (ps.map (fun p => if p.1 = k then (k, v) else p)) k') = _
        rw [if_neg hkk', ih]
        show _ = (if p.1 = k' then some p.2 else pyGet ps k')
        rw [if_neg hpk']
      · rw [if_neg hp]
        show (if p.1 = k' then some p.2 else
          pyGet (ps.map (fun p => if p.1 = k then (k, v) else p)) k') = _
        by_cases hpk : p.1 = k'
        · simp [pyGet, hpk]
        · rw [if_neg hpk, ih]
          show _ = (if p.1 = k' then some p.2 else pyGet ps k')
          rw [if_neg hpk]

theorem pyGet_map_replace_mem {α : Type} (d : List (String × α)) (k : String)
    (v : α) (hk : k ∈ pyKeys d) :
    pyGet (d.map (fun p => if p.1 = k then (k, v) else p)) k = some v := by
  induction d with
  | nil => simp [pyKeys] at hk
  | cons p ps ih =>
      simp only [List.map_cons]
      by_cases hp : p.1 = k
      · rw [if_pos hp]
        show (if k = k then some v else _) = some v
        rw [if_pos rfl]
      · rw [if_neg hp]
        have hk' : k ∈ pyKeys ps := by
          rcases mem_pyKeys_cons.mp hk with h1 | h2
          · exact absurd h1.symm hp
          · exact h2
        show (if p.1 = k then some p.2 else _) = some v
        rw [if_neg hp, ih hk']

theorem pyGet_append_single {α : Type} (d : List (String × α)) (k k' : String)
    (v : α) :
    pyGet (d ++ [(k, v)]) k' =
      (pyGet d k').or (if k = k' then some v else none) := by
  induction d with
  | nil => simp [pyGet, Option.or]
  | cons p ps ih =>
      by_cases hp : p.1 = k' <;> simp [pyGet, hp, ih, Option.or]

theorem pyGet_pySet {α : Type} (d : List (String × α)) (k k' : String) (v : α) :
    pyGet (pySet d k v) k' = if k = k' then some v else pyGet d k' := by
  unfold pySet
  by_cases hk : k ∈ pyKeys d
  · rw [if_pos hk]
    by_cases h : k = k'
    · subst h
      rw [pyGet_map_replace_mem d k v hk, if_pos rfl]
    · rw [pyGet_map_replace_ne d k k' v (fun hh => h hh.symm), if_neg h]
  · rw [if_neg hk, pyGet_append_single]
    by_cases h : k = k'
    · subst h
      rw [pyGet_eq_none_of_not_mem hk, if_pos rfl]
      rfl
    · rw [if_neg h, if_neg h]
      cases pyGet d k' <;> rfl

theorem pyKeys_pySet {α : Type} (d : List (String × α)) (k : String) (v : α) :
    pyKeys (pySet d k v) =
      if k ∈ pyKeys d then pyKeys d else pyKeys d ++ [k] := by
  unfold pySet
  by_cases hk : k ∈ pyKeys d
  · rw [if_pos hk, if_pos hk]
    simp only [pyKeys, List.map_map]
    congr 1
    funext p
    by_cases hp : p.1 = k <;> simp [hp]
  · rw [if_neg hk, if_neg hk]
    simp [pyKeys]

theorem pyKeys_pySet_nodup {α : Type} (d : List (String × α)) (k : String)
    (v : α) (h : (pyKeys d).Nodup) : (pyKeys (pySet d k v)).Nodup := by
  rw [pyKeys_pySet]
  by_cases hk : k ∈ pyKeys d
  · rwa [if_pos hk]
  · rw [if_neg hk]
    simpa [List.nodup_append] using ⟨h, hk⟩

theorem mem_pyKeys_pySet_self {α : Type} (d : List (String × α)) (k : String)
    (v : α) : k ∈ pyKeys (pySet d k v) := by
  rw [pyKeys_pySet]
  by_cases hk : k ∈ pyKeys d <;> simp [hk]

/-! ## Lemmas about `flatten` -/

theorem lastFieldValue_cons (c : ResultCell) (row : List ResultCell)
    (k : String) :
    lastFieldValue (c :: row) k =
      (lastFieldValue row k).or
        (if c.field = k then some c.value else none) := by
  unfold lastFieldValue
  rw [List.reverse_cons, List.find?_append]
  by_cases h : c.field = k
  · cases hfind : (row.reverse.find? (fun x => x.field == k)) <;>
      simp [h, hfind, Option.or]
  · cases hfind : (row.reverse.find? (fun x => x.field == k)) <;>
      simp [h, hfind, Option.or]

theorem pyGet_foldl_pySet (row : List ResultCell) (init : PyDict)
    (k : String) :
    pyGet (row.foldl (fun d c => pySet d c.field c.value) init) k =
      (lastFieldValue row k).or (pyGet init k) := by
  induction row generalizing init with
  | nil => simp [lastFieldValue, Option.or]
  | cons c row ih =>
      rw [List.foldl_cons, ih, lastFieldValue_cons, pyGet_pySet]
      by_cases h : c.field = k
      · cases hlv : lastFieldValue row k <;> simp [Option.or, h]
      · cases hlv : lastFieldValue row k <;> simp [Option.or, h]

theorem nodup_foldl_pySet (row : List ResultCell) (init : PyDict)
    (h : (pyKeys init).Nodup) :
    (pyKeys (row.foldl (fun d c => pySet d c.field c.value) init)).Nodup := by
  induction row generalizing init with
  | nil => exact h
  | cons c row ih => exact ih _ (pyKeys_pySet_nodup _ _ _ h)

theorem flatten_getD (results : RawResults) (i : Nat) :
    (flatten results).getD i [] =
      (results.getD i []).foldl (fun d c => pySet d c.field c.value) [] := by
  rcases Nat.lt_or_ge i results.length with hi | hi
  · have hi' : i < (flatten results).length := by simpa [flatten] using hi
    rw [List.getD_eq_getElem _ _ hi', List.getD_eq_getElem _ _ hi]
    simp [flatten]
  · have hi' : (flatten results).length ≤ i := by simpa [flatten] using hi
    rw [List.getD_eq_default _ _ hi', List.getD_eq_default _ _ hi]
    rfl

/-! ## Claim theorems: Row Flattener (C4) -/

/-- C4 counterexample: the claim asserts that a row containing the same
field name twice is not collapsed, but `flatten` builds a Python dict,
so the duplicated field `"a"` collapses to a single entry holding the
last value: the flattened row has one entry, not two. -/
theorem claim_C4_counterexample :
    flatten [[⟨"a", "1"⟩, ⟨"a", "2"⟩]] = [[("a", "2")]] ∧
    ((flatten [[⟨"a", "1"⟩, ⟨"a", "2"⟩]]).getD 0 []).length ≠ 2 := by
  constructor <;> decide

/-- C4 (amended): `flatten` returns one field-name-to-value mapping per
input row, preserving row order; within a row, duplicate field names are
collapsed into a single key holding the value of the last cell with that
field name (Python dict semantics), and the resulting keys are
duplicate-free. -/
theorem claim_C4_amended (results : RawResults) :
    (flatten results).length = results.length ∧
    ∀ i, i < results.length →
      (pyKeys ((flatten results).getD i [])).Nodup ∧
      ∀ k, pyGet ((flatten results).getD i []) k =
        lastFieldValue (results.getD i []) k := by
  refine ⟨by simp [flatten], fun i _ => ⟨?_, fun k => ?_⟩⟩
  · rw [flatten_getD]
    exact nodup_foldl_pySet _ _ (by simp [pyKeys])
  · rw [flatten_getD, pyGet_foldl_pySet]
    cases h : lastFieldValue (results.getD i []) k <;> simp [Option.or, pyGet]

/-- C4 witness: the amended theorem applied to the spec's own example
row list `[[{"field": "a", "value": "1"}, {"field": "b", "value": "2"}]]`. -/
theorem claim_C4_witness :
    (0 : Nat) < ([[⟨"a", "1"⟩, ⟨"b", "2"⟩]] : RawResults).length ∧
    (flatten [[⟨"a", "1"⟩, ⟨"b", "2"⟩]]).length = 1 ∧
    (pyKeys ((flatten [[⟨"a", "1"⟩, ⟨"b", "2"⟩]]).getD 0 [])).Nodup ∧
    pyGet ((flatten [[⟨"a", "1"⟩, ⟨"b", "2"⟩]]).getD 0 []) "b" =
      lastFieldValue (([[⟨"a", "1"⟩, ⟨"b", "2"⟩]] : RawResults).getD 0 []) "b" :=
  ⟨by decide,
   (claim_C4_amended [[⟨"a", "1"⟩, ⟨"b", "2"⟩]]).1,
   ((claim_C4_amended [[⟨"a", "1"⟩, ⟨"b", "2"⟩]]).2 0 (by decide)).1,
   ((claim_C4_amended [[⟨"a", "1"⟩, ⟨"b", "2"⟩]]).2 0 (by decide)).2 "b"⟩

/-! ## Claim theorems: Result Poller (C7) -/

/-- C7: on fetch statuses `[Running, Running, Complete(R)]` the poller
sleeps exactly twice and returns exactly `R`; on `[Running, Failed]` it
sleeps once and raises the `RuntimeError` (the spec's
`QueryTerminatedError`) whose message references the terminal state
`Failed`. -/
theorem claim_C7 (q : String) (R : RawResults) :
    wait_results q
        [.resp "Running" [], .resp "Running" [], .resp "Complete" R] 0 =
      some (2, .ok R) ∧
    wait_results q [.resp "Running" [], .resp "Failed" []] 0 =
      some (1, .error (.runtimeError
        ("Consulta " ++ q ++ " terminó con estado " ++ "Failed"))) := by
  constructor <;> rfl

/-! ## Claim theorems: Time Parser (C2, C5) -/

/-- C2: the claim (and the source's own docstring examples and error
message `"Usa YYYY-MM-DD HH:MM"`) say a time of the form `HH:MM` is
tolerated, but `strptime` with format `"%Y-%m-%d %H:%M:%S"` rejects a
time without seconds, so `parse_cli_time` raises `ValueError` on the
docstring's own example `2025-05-08 07:14` while accepting `07:14:00`. -/
theorem claim_C2_code_evaluation :
    parse_cli_time "2025-05-08" "07:14" = none ∧
    parse_cli_time "2025-05-08" "07:14:00" =
      some ⟨2025, 5, 8, 7, 14, 0⟩ := by
  constructor <;> rfl

/-- C5: whenever the start arguments parse, the computed start epoch is
exactly the epoch of the parsed local timestamp plus five hours
(18000 seconds). -/
theorem to_epoch_addSeconds (t : NaiveInstant) (n : Nat) :
    to_epoch (addSeconds t n) = to_epoch t + n := by
  rcases t with ⟨o, s⟩
  simp only [to_epoch, addSeconds]
  omega

theorem claim_C5 (d t : String) (dt : PyDatetime)
    (h : parse_cli_time d t = some dt) :
    startEpoch d t = some (to_epoch dt.toInstant + 18000) := by
  rw [startEpoch, h]
  show some (to_epoch (addSeconds dt.toInstant 18000)) = _
  rw [to_epoch_addSeconds]
  norm_num

/-- C5 witness: the spec's example — `2025-05-08 07:14:00` parses, and
the computed start epoch is `1746706440`, the epoch second count of
`2025-05-08T12:14:00Z`. -/
theorem claim_C5_witness :
    parse_cli_time "2025-05-08" "07:14:00" = some ⟨2025, 5, 8, 7, 14, 0⟩ ∧
    startEpoch "2025-05-08" "07:14:00" =
      some (to_epoch (PyDatetime.toInstant ⟨2025, 5, 8, 7, 14, 0⟩) + 18000) ∧
    startEpoch "2025-05-08" "07:14:00" = some 1746706440 :=
  ⟨by rfl, claim_C5 "2025-05-08" "07:14:00" ⟨2025, 5, 8, 7, 14, 0⟩ (by rfl),
   by rfl⟩

/-! ## Claim theorems: Orchestrator early exit (C6) -/

/-- C6: when the computed start instant is not strictly before the
computed end instant, `main` exits with status 1 before the group loop
starts: no `start_query` call is made and `save_results` is never
invoked, whatever `--out` was given. -/
theorem claim_C6 (args : CliArgs) (now : NaiveInstant)
    (remote : String → GroupEvent) (s e : NaiveInstant)
    (hw : mainWindow args now = some (s, e))
    (hge : totalSeconds e ≤ totalSeconds s) :
    mainRun args now remote = some ⟨1, [], none⟩ := by
  rw [mainRun, hw]
  simp [hge]

/-- C6 witness: an invocation whose start and end instants coincide
(start ≥ end), with `--out a.json`: exit code 1, no group reached, no
save. -/
theorem claim_C6_witness :
    mainWindow ⟨"2025-05-08", "07:14:00", some "2025-05-08",
        some "07:14:00", some "a.json"⟩ ⟨0, 0⟩ =
      some (⟨739379, 44040⟩, ⟨739379, 44040⟩) ∧
    totalSeconds ⟨739379, 44040⟩ ≤ totalSeconds ⟨739379, 44040⟩ ∧
    mainRun ⟨"2025-05-08", "07:14:00", some "2025-05-08",
        some "07:14:00", some "a.json"⟩ ⟨0, 0⟩
        (fun _ => .submitError "unreached") = some ⟨1, [], none⟩ :=
  ⟨by rfl, Nat.le_refl _,
   claim_C6 _ _ _ _ _ (by rfl) (Nat.le_refl _)⟩

/-! ## Claim theorems: Reporter (C3) -/

/-- C3 counterexample: with `tabulate` importable (the mode the source's
own requirements install) and a non-empty row list, `pretty_print`
prints nothing at all — the `tabulate` call is commented out in the
source — contradicting the claim that every non-empty sequence is
printed row by row. -/
theorem claim_C3_counterexample :
    pretty_print true [[("a", "1")]] = [] ∧
    ([[("a", "1")]] : List PyDict) ≠ [] := by
  constructor <;> decide

/-! ## Claim theorems: per-group error handling (C1) -/

/-- C1 counterexample: when the middle log group's polling ends in the
terminal state `Failed`, the raised `RuntimeError` is **not** a
`ClientError`, so the `except ClientError` handler does not catch it:
the loop dies with the exception uncaught, and the run does **not**
continue to the third log group (it is absent from the issued list). -/
theorem claim_C1_counterexample :
    runGroups failingRemote LOG_GROUPS =
      some ⟨[("/aws/lambda/bm-qrec-api-redeban", [])],
            ["/aws/lambda/bm-qrec-api-redeban",
             "/aws/lambda/bm-qrec-authorizer"],
            some (.runtimeError "Consulta q2 terminó con estado Failed")⟩ ∧
    "/aws/lambda/bm-qrec-do-transaction" ∉
      (["/aws/lambda/bm-qrec-api-redeban",
        "/aws/lambda/bm-qrec-authorizer"] : List String) := by
  constructor
  · rfl
  · decide

/-- C1 (amended): a `ClientError` in one group's submission or fetch is
caught per group (the group is skipped and the run continues), but the
`RuntimeError` raised when a group's polling ends in `Cancelled`,
`Failed` or `Timeout` is **not** converted into a caught error: it
escapes the per-group handler, the loop aborts, the groups after the
failing one are never queried, and only groups before it can appear in
the aggregate. -/
theorem claim_C1_amended (remote : String → GroupEvent)
    (pre post : List String) (lg : String)
    (hpre : ∀ g ∈ pre, ∃ res, runGroupBody (remote g) = some res ∧
      ∀ e, res = Except.error e → e.isClientError = true)
    (msg : String)
    (hterm : runGroupBody (remote lg) = some (.error (.runtimeError msg))) :
    ∃ r, runGroups remote (pre ++ lg :: post) = some r ∧
      r.uncaught = some (.runtimeError msg) ∧
      r.issued = pre ++ [lg] ∧
      ∀ g rows, (g, rows) ∈ r.aggregate → g ∈ pre := by
  induction pre with
  | nil =>
      refine ⟨⟨[], [lg], some (.runtimeError msg)⟩, ?_, rfl, rfl, by simp⟩
      simp [runGroups, hterm, PyError.isClientError]
  | cons g gs ih =>
      obtain ⟨res, hres, hcli⟩ := hpre g (List.mem_cons_self g gs)
      obtain ⟨r, hr, hu, hi, ha⟩ :=
        ih (fun g' hg' => hpre g' (List.mem_cons_of_mem g hg'))
      cases res with
      | ok rows =>
          refine ⟨⟨(g, rows) :: r.aggregate, g :: r.issued, r.uncaught⟩, ?_,
            hu, by simp [hi], ?_⟩
          · have hr' : runGroups remote (gs.append (lg :: post)) = some r := hr
            simp only [List.cons_append, runGroups, hres]
            rw [hr']
            rfl
          · intro g' rows' hmem
            rcases List.mem_cons.mp hmem with h1 | h2
            · rw [Prod.mk.injEq] at h1
              rw [h1.1]
              exact List.mem_cons_self g gs
            · exact List.mem_cons_of_mem g (ha g' rows' h2)
      | error e =>
          have hc : e.isClientError = true := hcli e rfl
          refine ⟨⟨r.aggregate, g :: r.issued, r.uncaught⟩, ?_, hu,
            by simp [hi], fun g' rows' hmem =>
              List.mem_cons_of_mem g (ha g' rows' hmem)⟩
          have hr' : runGroups remote (gs.append (lg :: post)) = some r := hr
          simp only [List.cons_append, runGroups, hres, hc, if_pos]
          rw [hr']
          rfl

/-- C1 witness: the amended theorem at the concrete failing remote, with
the first hardcoded group before the failing one and the third after
it. -/
theorem claim_C1_witness :
    (∀ g ∈ ["/aws/lambda/bm-qrec-api-redeban"],
      ∃ res, runGroupBody (failingRemote g) = some res ∧
        ∀ e, res = Except.error e → e.isClientError = true) ∧
    runGroupBody (failingRemote "/aws/lambda/bm-qrec-authorizer") =
      some (.error (.runtimeError "Consulta q2 terminó con estado Failed")) ∧
    ∃ r, runGroups failingRemote
        (["/aws/lambda/bm-qrec-api-redeban"] ++
          "/aws/lambda/bm-qrec-authorizer" ::
            ["/aws/lambda/bm-qrec-do-transaction"]) = some r ∧
      r.uncaught = some (.runtimeError "Consulta q2 terminó con estado Failed") ∧
      r.issued = ["/aws/lambda/bm-qrec-api-redeban"] ++
        ["/aws/lambda/bm-qrec-authorizer"] ∧
      ∀ g rows, (g, rows) ∈ r.aggregate →
        g ∈ ["/aws/lambda/bm-qrec-api-redeban"] :=
  ⟨fun g hg => ⟨.ok [], by
      rcases List.mem_singleton.mp hg with rfl
      rfl, fun e he => by cases he⟩,
   by rfl,
   claim_C1_amended failingRemote ["/aws/lambda/bm-qrec-api-redeban"]
     ["/aws/lambda/bm-qrec-do-transaction"] "/aws/lambda/bm-qrec-authorizer"
     (fun g hg => ⟨.ok [], by
        rcases List.mem_singleton.mp hg with rfl
        rfl, fun e he => by cases he⟩)
     "Consulta q2 terminó con estado Failed" (by rfl)⟩

/-! ## Claim theorems: CSV copies leave the input rows unchanged (C10) -/

theorem getD_append_of_lt {α : Type} (l t : List α) (b : Nat) (d : α)
    (hb : b < l.length) : (l ++ t).getD b d = l.getD b d := by
  induction l generalizing b with
  | nil => simp at hb
  | cons x xs ih =>
      cases b with
      | zero => rfl
      | succ b => exact ih b (Nat.lt_of_succ_lt_succ hb)

theorem getD_append_length {α : Type} (l : List α) (x : α) (t : List α)
    (d : α) : (l ++ x :: t).getD l.length d = x := by
  induction l with
  | nil => rfl
  | cons y ys ih => exact ih

theorem set_append_length {α : Type} (l : List α) (x y : α) :
    (l ++ [x]).set l.length y = l ++ [y] := by
  induction l with
  | nil => rfl
  | cons z zs ih => simp [List.set, ih]

theorem csvCollectGroup_spec (lg : String) (as : List Nat) (s : Store)
    (hv : ∀ b ∈ as, b < s.cells.length) :
    (csvCollectGroup lg as s).1.cells =
      s.cells ++ as.map (fun a => pySet (s.read a) "log_group" lg) ∧
    ((csvCollectGroup lg as s).2).map ((csvCollectGroup lg as s).1.read) =
      as.map (fun a => pySet (s.read a) "log_group" lg) ∧
    ∀ a' ∈ (csvCollectGroup lg as s).2,
      a' < (csvCollectGroup lg as s).1.cells.length := by
  induction as generalizing s with
  | nil => exact ⟨by simp [csvCollectGroup], rfl, by simp [csvCollectGroup]⟩
  | cons a as ih =>
      have hread : (Store.alloc s (s.read a)).1.read s.cells.length = s.read a := by
        show (s.cells ++ [s.read a]).getD s.cells.length [] = s.read a
        simp only [getD_append_length s.cells (s.read a) [] []]
      have hs2 :
          ((Store.alloc s (s.read a)).1.write s.cells.length
            (pySet ((Store.alloc s (s.read a)).1.read s.cells.length)
              "log_group" lg)).cells =
          s.cells ++ [pySet (s.read a) "log_group" lg] := by
        rw [hread]
        exact set_append_length s.cells (s.read a) _
      set s2 : Store :=
        (Store.alloc s (s.read a)).1.write s.cells.length
          (pySet ((Store.alloc s (s.read a)).1.read s.cells.length)
            "log_group" lg) with hs2def
      have hlen2 : s2.cells.length = s.cells.length + 1 := by
        rw [hs2]
        simp
      have hv2 : ∀ b ∈ as, b < s2.cells.length := fun b hb => by
        rw [hlen2]
        exact Nat.lt_succ_of_lt (hv b (List.mem_cons_of_mem a hb))
      have hpres : ∀ b, b < s.cells.length → s2.read b = s.read b := by
        intro b hb
        show s2.cells.getD b [] = s.cells.getD b []
        rw [hs2]
        exact getD_append_of_lt s.cells _ b [] hb
      obtain ⟨ihc, ihm, ihb⟩ := ih s2 hv2
      have hmapeq :
          as.map (fun b => pySet (s2.read b) "log_group" lg) =
          as.map (fun b => pySet (s.read b) "log_group" lg) :=
        List.map_congr_left (fun b hb => by
          rw [hpres b (hv b (List.mem_cons_of_mem a hb))])
      have hunfold :
          csvCollectGroup lg (a :: as) s =
            ((csvCollectGroup lg as s2).1,
              s.cells.length :: (csvCollectGroup lg as s2).2) := rfl
      refine ⟨?_, ?_, ?_⟩
      · rw [hunfold, ihc, hs2, hmapeq]
        simp
      · rw [hunfold]
        simp only [List.map_cons]
        congr 1
        · show (csvCollectGroup lg as s2).1.cells.getD s.cells.length [] = _
          rw [ihc, hs2]
          simpa using
            getD_append_length s.cells (pySet (s.read a) "log_group" lg) _ []
        · rw [ihm, hmapeq]
      · rw [hunfold]
        intro a' ha'
        rcases List.mem_cons.mp ha' with h1 | h2
        · subst h1
          rw [ihc, hs2]
          simp only [List.length_append, List.length_singleton, List.length_map]
          omega
        · exact ihb a' h2

theorem csvCollectAll_spec (data : List (String × List Nat)) (s : Store)
    (hv : ∀ g ∈ data, ∀ b ∈ g.2, b < s.cells.length) :
    (csvCollectAll data s).1.cells =
      s.cells ++ csvAllRows (data.map (fun g => (g.1, g.2.map s.read))) ∧
    ((csvCollectAll data s).2).map ((csvCollectAll data s).1.read) =
      csvAllRows (data.map (fun g => (g.1, g.2.map s.read))) := by
  induction data generalizing s with
  | nil => exact ⟨by simp [csvCollectAll, csvAllRows], rfl⟩
  | cons g gs ih =>
      obtain ⟨gc, gm, gb⟩ :=
        csvCollectGroup_spec g.1 g.2 s (hv g (List.mem_cons_self g gs))
      set s1 : Store := (csvCollectGroup g.1 g.2 s).1 with hs1def
      have hlen1 : s.cells.length ≤ s1.cells.length := by
        rw [gc]
        simp
      have hv1 : ∀ g' ∈ gs, ∀ b ∈ g'.2, b < s1.cells.length :=
        fun g' hg' b hb =>
          Nat.lt_of_lt_of_le (hv g' (List.mem_cons_of_mem g hg') b hb) hlen1
      have hpres1 : ∀ b, b < s.cells.length → s1.read b = s.read b := by
        intro b hb
        show s1.cells.getD b [] = s.cells.getD b []
        rw [gc]
        exact getD_append_of_lt s.cells _ b [] hb
      obtain ⟨ihc, ihm⟩ := ih s1 hv1
      have hmapeq :
          gs.map (fun g' => (g'.1, g'.2.map s1.read)) =
          gs.map (fun g' => (g'.1, g'.2.map s.read)) :=
        List.map_congr_left (fun g' hg' => by
          congr 1
          exact List.map_congr_left (fun b hb =>
            hpres1 b (hv g' (List.mem_cons_of_mem g hg') b hb)))
      have hpres2 : ∀ b, b < s1.cells.length →
          (csvCollectAll gs s1).1.read b = s1.read b := by
        intro b hb
        show (csvCollectAll gs s1).1.cells.getD b [] = s1.cells.getD b []
        rw [ihc]
        exact getD_append_of_lt s1.cells _ b [] hb
      have hunfold :
          csvCollectAll (g :: gs) s =
            ((csvCollectAll gs s1).1,
              (csvCollectGroup g.1 g.2 s).2 ++ (csvCollectAll gs s1).2) := rfl
      have hgroupmap :
          ((csvCollectGroup g.1 g.2 s).2).map ((csvCollectAll gs s1).1.read) =
          g.2.map (fun a => pySet (s.read a) "log_group" g.1) := by
        rw [List.map_congr_left (fun a' ha' => hpres2 a' (gb a' ha')), gm]
      refine ⟨?_, ?_⟩
      · rw [hunfold, ihc, gc, hmapeq]
        show _ = s.cells ++ csvAllRows ((g.1, g.2.map s.read) ::
          gs.map (fun g' => (g'.1, g'.2.map s.read)))
        simp only [csvAllRows, List.flatMap_cons, List.map_map,
          List.append_assoc]
        rfl
      · rw [hunfold, List.map_append, hgroupmap, ihm, hmapeq]
        show _ = csvAllRows ((g.1, g.2.map s.read) ::
          gs.map (fun g' => (g'.1, g'.2.map s.read)))
        simp only [csvAllRows, List.flatMap_cons, List.map_map]
        rfl

/-- C10: the CSV branch of `save_results` leaves every row dict of the
input aggregate unchanged — `log_group` is assigned on `r.copy()`, a
freshly allocated cell, so after collecting `all_rows` every
pre-existing cell of the store reads exactly as before, while the
collected rows are the value-level `csvAllRows` (each a copy with
`log_group` injected). -/
theorem claim_C10 (data : List (String × List Nat)) (s : Store)
    (hv : ∀ g ∈ data, ∀ b ∈ g.2, b < s.cells.length) :
    (∀ a, a < s.cells.length →
      (csvCollectAll data s).1.read a = s.read a) ∧
    ((csvCollectAll data s).2).map ((csvCollectAll data s).1.read) =
      csvAllRows (data.map (fun g => (g.1, g.2.map s.read))) := by
  obtain ⟨hc, hm⟩ := csvCollectAll_spec data s hv
  refine ⟨fun a ha => ?_, hm⟩
  show (csvCollectAll data s).1.cells.getD a [] = s.cells.getD a []
  rw [hc]
  exact getD_append_of_lt s.cells _ a [] ha

/-- C10 witness: one stored row, one group referencing it — the
original cell is untouched and the collected row is the copy with
`log_group` added. -/
theorem claim_C10_witness :
    (∀ g ∈ [("A", [0])], ∀ b ∈ g.2, b < (Store.mk [[("x", "1")]]).cells.length) ∧
    (∀ a, a < (Store.mk [[("x", "1")]]).cells.length →
      (csvCollectAll [("A", [0])] (Store.mk [[("x", "1")]])).1.read a =
        (Store.mk [[("x", "1")]]).read a) ∧
    ((csvCollectAll [("A", [0])] (Store.mk [[("x", "1")]])).2).map
        ((csvCollectAll [("A", [0])] (Store.mk [[("x", "1")]])).1.read) =
      csvAllRows ([("A", [0])].map
        (fun g => (g.1, g.2.map (Store.mk [[("x", "1")]]).read))) :=
  ⟨by decide, (claim_C10 [("A", [0])] (Store.mk [[("x", "1")]]) (by decide)).1,
   (claim_C10 [("A", [0])] (Store.mk [[("x", "1")]]) (by decide)).2⟩

/-! ## JSON text round trip: string literals -/

theorem skipWs_nil : skipWs [] = [] := rfl

theorem skipWs_cons_ws {c : Char} (l : List Char) (h : isJsonWs c = true) :
    skipWs (c :: l) = skipWs l := by
  simp [skipWs, h]

theorem skipWs_cons_not_ws {c : Char} (l : List Char)
    (h : isJsonWs c = false) : skipWs (c :: l) = c :: l := by
  simp [skipWs, h]

theorem skipWs_append_spaces (n : Nat) (l : List Char) :
    skipWs (spacesC n ++ l) = skipWs l := by
  induction n with
  | zero => rfl
  | succ n ih =>
      show skipWs (' ' :: (spacesC n ++ l)) = skipWs l
      rw [skipWs_cons_ws _ (by decide), ih]

theorem skipWs_length_le (l : List Char) : (skipWs l).length ≤ l.length := by
  induction l with
  | nil => exact Nat.le_refl 0
  | cons c cs ih =>
      by_cases h : isJsonWs c
      · rw [skipWs_cons_ws _ h]
        exact Nat.le_succ_of_le ih
      · rw [skipWs_cons_not_ws _ (by simpa using h)]

theorem hexVal_hexDig : ∀ m, m < 16 → hexVal (hexDig m) = some m := by decide

theorem ofNatAux_toNat (c : Char) (h : c.toNat.isValidChar) :
    Char.ofNatAux c.toNat h = c := by
  have := Char.ofNat_toNat c
  rw [Char.ofNat, dif_pos h] at this
  exact this

theorem ofNatAux_congr (n m : Nat) (hn : n.isValidChar) (hm : m.isValidChar)
    (h : n = m) : Char.ofNatAux n hn = Char.ofNatAux m hm := by
  subst h
  rfl

theorem scanStr_escapeChar (c : Char) (cs rest : List Char)
    (ih : scanStr (escapeChars cs ++ '"' :: rest) = some (cs, rest)) :
    scanStr (escapeChar c ++ (escapeChars cs ++ '"' :: rest)) =
      some (c :: cs, rest) := by
  by_cases h1 : c = '"'
  · subst h1
    show scanStr ('\\' :: '"' :: (escapeChars cs ++ '"' :: rest)) = _
    conv_lhs => rw [scanStr.eq_def]
    dsimp only
    rw [if_neg (by decide : ¬ ('\\' = '"')),
      if_neg (by decide : ¬ ('"' = 'u')), ih]
    rfl
  · by_cases h2 : c = '\\'
    · subst h2
      show scanStr ('\\' :: '\\' :: (escapeChars cs ++ '"' :: rest)) = _
      conv_lhs => rw [scanStr.eq_def]
      dsimp only
      rw [if_neg (by decide : ¬ ('\\' = '"')),
        if_neg (by decide : ¬ ('\\' = 'u')), ih]
      rfl
    · by_cases h3 : c = '\x08'
      · subst h3
        show scanStr ('\\' :: 'b' :: (escapeChars cs ++ '"' :: rest)) = _
        conv_lhs => rw [scanStr.eq_def]
        dsimp only
        rw [if_neg (by decide : ¬ ('\\' = '"')),
          if_neg (by decide : ¬ ('b' = 'u')), ih]
        rfl
      · by_cases h4 : c = '\x0c'
        · subst h4
          show scanStr ('\\' :: 'f' :: (escapeChars cs ++ '"' :: rest)) = _
          conv_lhs => rw [scanStr.eq_def]
          dsimp only
          rw [if_neg (by decide : ¬ ('\\' = '"')),
            if_neg (by decide : ¬ ('f' = 'u')), ih]
          rfl
        · by_cases h5 : c = '\n'
          · subst h5
            show scanStr ('\\' :: 'n' :: (escapeChars cs ++ '"' :: rest)) = _
            conv_lhs => rw [scanStr.eq_def]
            dsimp only
            rw [if_neg (by decide : ¬ ('\\' = '"')),
              if_neg (by decide : ¬ ('n' = 'u')), ih]
            rfl
          · by_cases h6 : c = '\r'
            · subst h6
              show scanStr ('\\' :: 'r' :: (escapeChars cs ++ '"' :: rest)) = _
              conv_lhs => rw [scanStr.eq_def]
              dsimp only
              rw [if_neg (by decide : ¬ ('\\' = '"')),
                if_neg (by decide : ¬ ('r' = 'u')), ih]
              rfl
            · by_cases h7 : c = '\t'
              · subst h7
                show scanStr ('\\' :: 't' :: (escapeChars cs ++ '"' :: rest)) = _
                conv_lhs => rw [scanStr.eq_def]
                dsimp only
                rw [if_neg (by decide : ¬ ('\\' = '"')),
                  if_neg (by decide : ¬ ('t' = 'u')), ih]
                rfl
              · by_cases h8 : c.toNat < 32
                · have hval : c.toNat.isValidChar := Or.inl (by omega)
                  have hn : ((c.toNat / 4096 % 16 * 16 + c.toNat / 256 % 16) *
                      16 + c.toNat / 16 % 16) * 16 + c.toNat % 16 =
                      c.toNat := by omega
                  have hval' : (((c.toNat / 4096 % 16 * 16 +
                      c.toNat / 256 % 16) * 16 + c.toNat / 16 % 16) * 16 +
                      c.toNat % 16).isValidChar := by
                    rw [hn]
                    exact hval
                  have e1 := hexVal_hexDig (c.toNat / 4096 % 16)
                    (Nat.mod_lt _ (by omega))
                  have e2 := hexVal_hexDig (c.toNat / 256 % 16)
                    (Nat.mod_lt _ (by omega))
                  have e3 := hexVal_hexDig (c.toNat / 16 % 16)
                    (Nat.mod_lt _ (by omega))
                  have e4 := hexVal_hexDig (c.toNat % 16)
                    (Nat.mod_lt _ (by omega))
                  simp only [escapeChar, if_neg h1, if_neg h2, if_neg h3,
                    if_neg h4, if_neg h5, if_neg h6, if_neg h7, if_pos h8,
                    List.cons_append]
                  show scanStr ('\\' :: 'u' ::
                    (hexDig (c.toNat / 4096 % 16) ::
                      hexDig (c.toNat / 256 % 16) ::
                      hexDig (c.toNat / 16 % 16) ::
                      hexDig (c.toNat % 16) ::
                      (escapeChars cs ++ '"' :: rest))) = _
                  conv_lhs => rw [scanStr.eq_def]
                  dsimp only
                  rw [if_neg (by decide : ¬ ('\\' = '"')),
                    if_pos (rfl : ('u' : Char) = 'u')]
                  rw [e1, e2, e3, e4]
                  dsimp only
                  rw [dif_pos hval', ih]
                  dsimp only [Option.map]
                  rw [ofNatAux_congr _ _ hval' hval hn, ofNatAux_toNat c hval]
                  rw [if_pos (rfl : ('\\' : Char) = '\\')]
                · have h9 : ¬ (c.toNat < 32) := h8
                  simp only [escapeChar, if_neg h1, if_neg h2, if_neg h3,
                    if_neg h4, if_neg h5, if_neg h6, if_neg h7, if_neg h9,
                    List.cons_append, List.nil_append]
                  rw [scanStr.eq_def]
                  simp [h1, h2, h9, ih]

theorem scanStr_render (cs rest : List Char) :
    scanStr (escapeChars cs ++ '"' :: rest) = some (cs, rest) := by
  induction cs with
  | nil =>
      show scanStr ('"' :: rest) = some ([], rest)
      rw [scanStr.eq_def]
      simp
  | cons c cs ih =>
      have : escapeChars (c :: cs) = escapeChar c ++ escapeChars cs := by
        simp [escapeChars]
      rw [this, List.append_assoc]
      exact scanStr_escapeChar c cs rest ih

theorem parseStr_render (s : String) (rest : List Char) :
    parseStr (renderStrC s ++ rest) = some (s, rest) := by
  show parseStr ('"' :: (escapeChars s.data ++ ['"']) ++ rest) = some (s, rest)
  rw [List.cons_append, List.append_assoc]
  simp only [List.cons_append, List.nil_append]
  simp [parseStr, scanStr_render]

/-! ## JSON text round trip: shapes of rendered fragments -/

theorem skipWs_renderStr (s : String) (z : List Char) :
    skipWs (renderStrC s ++ z) = renderStrC s ++ z := by
  show skipWs ('"' :: ((escapeChars s.data ++ ['"']) ++ z)) = _
  rw [skipWs_cons_not_ws _ (by decide)]
  rfl

theorem skipWs_renderPair (p : String × String) (z : List Char) :
    skipWs (renderPairC p ++ z) = renderPairC p ++ z := by
  show skipWs ('"' :: (((escapeChars p.1.data ++ ['"']) ++
    ':' :: ' ' :: renderStrC p.2) ++ z)) = _
  rw [skipWs_cons_not_ws _ (by decide)]
  rfl

theorem renderInnerC_head (i : Nat) (r : PyDict) (z : List Char) :
    renderInnerC i r ++ z = '\x7b' ::
      ((renderInnerC i r).tail ++ z) := by
  cases r <;> rfl

theorem skipWs_renderInner (i : Nat) (r : PyDict) (z : List Char) :
    skipWs (renderInnerC i r ++ z) = renderInnerC i r ++ z := by
  rw [renderInnerC_head, skipWs_cons_not_ws _ (by decide)]

theorem renderArrC_head (i : Nat) (rows : List PyDict) (z : List Char) :
    renderArrC i rows ++ z = '[' :: ((renderArrC i rows).tail ++ z) := by
  cases rows <;> rfl

theorem skipWs_renderArr (i : Nat) (rows : List PyDict) (z : List Char) :
    skipWs (renderArrC i rows ++ z) = renderArrC i rows ++ z := by
  rw [renderArrC_head, skipWs_cons_not_ws _ (by decide)]

theorem renderPairC_length_pos (p : String × String) :
    0 < (renderPairC p).length := by
  show 0 < (('"' :: ((escapeChars p.1.data ++ ['"']) ++
    ':' :: ' ' :: renderStrC p.2)) : List Char).length
  simp

theorem renderInnerC_length_pos (i : Nat) (r : PyDict) :
    0 < (renderInnerC i r).length := by
  cases r with
  | nil => simp [renderInnerC]
  | cons p tl => simp [renderInnerC]

/-- The member stream of a non-empty object, after whitespace
skipping. -/
theorem skipWs_members (i : Nat) (p : String × String)
    (tl : List (String × String)) (z : List Char) :
    skipWs (renderMembersC i (p :: tl) ++ z) =
      renderPairC p ++
        (match tl with
         | [] => z
         | _ :: _ => ',' :: '\n' :: (renderMembersC i tl ++ z)) := by
  cases tl with
  | nil =>
      show skipWs ((spacesC i ++ renderPairC p) ++ z) = _
      rw [List.append_assoc, skipWs_append_spaces, skipWs_renderPair]
  | cons q tl' =>
      show skipWs ((spacesC i ++ renderPairC p ++
        ',' :: '\n' :: renderMembersC i (q :: tl')) ++ z) = _
      rw [List.append_assoc, List.append_assoc, skipWs_append_spaces,
        ← List.append_assoc, List.append_assoc (renderPairC p),
        skipWs_renderPair]
      simp

/-- The element stream of a non-empty row array, after whitespace
skipping. -/
theorem skipWs_elems (i : Nat) (r : PyDict) (tl : List PyDict)
    (z : List Char) :
    skipWs (renderElemsC i (r :: tl) ++ z) =
      renderInnerC i r ++
        (match tl with
         | [] => z
         | _ :: _ => ',' :: '\n' :: (renderElemsC i tl ++ z)) := by
  cases tl with
  | nil =>
      show skipWs ((spacesC i ++ renderInnerC i r) ++ z) = _
      rw [List.append_assoc, skipWs_append_spaces, skipWs_renderInner]
  | cons q tl' =>
      show skipWs ((spacesC i ++ renderInnerC i r ++
        ',' :: '\n' :: renderElemsC i (q :: tl')) ++ z) = _
      rw [List.append_assoc, List.append_assoc, skipWs_append_spaces,
        ← List.append_assoc, List.append_assoc (renderInnerC i r),
        skipWs_renderInner]
      simp

/-- The member stream of the non-empty top-level object, after
whitespace skipping. -/
theorem skipWs_top_members (g : String × List PyDict)
    (tl : List (String × List PyDict)) (z : List Char) :
    skipWs (renderTopMembersC (g :: tl) ++ z) =
      renderStrC g.1 ++ (':' :: ' ' :: (renderArrC 2 g.2 ++
        (match tl with
         | [] => z
         | _ :: _ => ',' :: '\n' :: (renderTopMembersC tl ++ z)))) := by
  cases tl with
  | nil =>
      show skipWs ((spacesC 2 ++ (renderStrC g.1 ++
        ':' :: ' ' :: renderArrC 2 g.2)) ++ z) = _
      rw [List.append_assoc, skipWs_append_spaces,
        List.append_assoc (renderStrC g.1), skipWs_renderStr]
      simp
  | cons h tl' =>
      show skipWs ((spacesC 2 ++ (renderStrC g.1 ++
        ':' :: ' ' :: renderArrC 2 g.2) ++
        ',' :: '\n' :: renderTopMembersC (h :: tl')) ++ z) = _
      rw [List.append_assoc, List.append_assoc, skipWs_append_spaces,
        List.append_assoc (renderStrC g.1), skipWs_renderStr]
      simp

/-! ## JSON text round trip: length bounds feeding the loop fuel -/

theorem members_skip_bound (i : Nat) :
    ∀ (obj : List (String × String)) (z : List Char), obj ≠ [] →
      obj.length ≤ (skipWs (renderMembersC i obj ++ z)).length := by
  intro obj
  induction obj with
  | nil => intro z h; exact absurd rfl h
  | cons p tl ih =>
      intro z _
      rw [skipWs_members]
      cases tl with
      | nil =>
          have := renderPairC_length_pos p
          simp only [List.length_cons, List.length_nil, List.length_append]
          omega
      | cons q tl' =>
          have h1 := ih (z := z) (List.cons_ne_nil q tl')
          have h2 := skipWs_length_le (renderMembersC i (q :: tl') ++ z)
          have := renderPairC_length_pos p
          simp only [List.length_cons, List.length_append]
          simp only [List.length_cons] at h1
          simp only [List.length_append] at h2
          omega

theorem elems_skip_bound (i : Nat) :
    ∀ (rows : List PyDict) (z : List Char), rows ≠ [] →
      rows.length ≤ (skipWs (renderElemsC i rows ++ z)).length := by
  intro rows
  induction rows with
  | nil => intro z h; exact absurd rfl h
  | cons r tl ih =>
      intro z _
      rw [skipWs_elems]
      cases tl with
      | nil =>
          have := renderInnerC_length_pos i r
          simp only [List.length_cons, List.length_nil, List.length_append]
          omega
      | cons q tl' =>
          have h1 := ih (z := z) (List.cons_ne_nil q tl')
          have h2 := skipWs_length_le (renderElemsC i (q :: tl') ++ z)
          have := renderInnerC_length_pos i r
          simp only [List.length_cons, List.length_append]
          simp only [List.length_cons] at h1
          simp only [List.length_append] at h2
          omega

/-! ## JSON text round trip: the parser loops on rendered text -/

theorem innerMembers_render (i j : Nat) (rest : List Char) :
    ∀ (obj : List (String × String)) (fuel : Nat), obj ≠ [] →
      obj.length < fuel →
      innerMembers fuel (skipWs (renderMembersC i obj ++
        ('\n' :: (spacesC j ++ '\x7d' :: rest)))) = some (obj, rest) := by
  intro obj
  induction obj with
  | nil => intro fuel h _; exact absurd rfl h
  | cons p tl ih =>
      intro fuel _ hfuel
      cases fuel with
      | zero => omega
      | succ f =>
          rw [skipWs_members]
          cases tl with
          | nil =>
              rw [show renderPairC p ++ ('\n' :: (spacesC j ++ '\x7d' :: rest)) =
                renderStrC p.1 ++ (':' :: ' ' :: (renderStrC p.2 ++
                  ('\n' :: (spacesC j ++ '\x7d' :: rest)))) from by
                simp [renderPairC, List.append_assoc]]
              simp only [innerMembers]
              rw [parseStr_render]
              dsimp only
              rw [skipWs_cons_not_ws _ (by decide)]
              dsimp only [expectChar]
              rw [if_pos rfl]
              dsimp only
              rw [skipWs_cons_ws _ (by decide), skipWs_renderStr,
                parseStr_render]
              dsimp only
              rw [skipWs_cons_ws _ (by decide), skipWs_append_spaces,
                skipWs_cons_not_ws _ (by decide)]
              rfl
          | cons q tl' =>
              rw [show renderPairC p ++ (',' :: '\n' ::
                (renderMembersC i (q :: tl') ++
                  ('\n' :: (spacesC j ++ '\x7d' :: rest)))) =
                renderStrC p.1 ++ (':' :: ' ' :: (renderStrC p.2 ++
                  (',' :: '\n' :: (renderMembersC i (q :: tl') ++
                    ('\n' :: (spacesC j ++ '\x7d' :: rest)))))) from by
                simp [renderPairC, List.append_assoc]]
              simp only [innerMembers]
              rw [parseStr_render]
              dsimp only
              rw [skipWs_cons_not_ws _ (by decide)]
              dsimp only [expectChar]
              rw [if_pos rfl]
              dsimp only
              rw [skipWs_cons_ws _ (by decide), skipWs_renderStr,
                parseStr_render]
              dsimp only
              rw [skipWs_cons_not_ws _ (by decide)]
              change Option.map (fun r => ((p.1, p.2) :: r.1, r.2))
                (innerMembers f (skipWs ('\n' :: (renderMembersC i (q :: tl') ++
                  '\n' :: (spacesC j ++ '\x7d' :: rest))))) =
                some (p :: q :: tl', rest)
              rw [skipWs_cons_ws _ (by decide)]
              rw [ih f (List.cons_ne_nil q tl') (by
                simp only [List.length_cons] at hfuel ⊢
                omega)]
              rfl

theorem top_skip_bound :
    ∀ (data : List (String × List PyDict)) (z : List Char), data ≠ [] →
      data.length ≤ (skipWs (renderTopMembersC data ++ z)).length := by
  intro data
  induction data with
  | nil => intro z h; exact absurd rfl h
  | cons g tl ih =>
      intro z _
      rw [skipWs_top_members]
      cases tl with
      | nil =>
          simp only [List.length_cons, List.length_nil, List.length_append]
          have : 0 < (renderStrC g.1).length := by
            show 0 < (('"' : Char) :: (escapeChars g.1.data ++ ['"'])).length
            simp
          omega
      | cons h tl' =>
          have h1 := ih (z := z) (List.cons_ne_nil h tl')
          have h2 := skipWs_length_le (renderTopMembersC (h :: tl') ++ z)
          simp only [List.length_cons, List.length_append]
          simp only [List.length_cons] at h1
          simp only [List.length_append] at h2
          have : 0 < (renderStrC g.1).length := by
            show 0 < (('"' : Char) :: (escapeChars g.1.data ++ ['"'])).length
            simp
          omega

/-! ## Dict building from parsed pairs -/

theorem pyKeys_cons {α : Type} (p : String × α) (ps : List (String × α)) :
    pyKeys (p :: ps) = p.1 :: pyKeys ps := rfl

theorem pySet_not_mem {α : Type} (d : List (String × α)) (k : String) (v : α)
    (h : k ∉ pyKeys d) : pySet d k v = d ++ [(k, v)] := by
  unfold pySet
  rw [if_neg h]

theorem foldl_pySet_disjoint {α : Type} :
    ∀ (l acc : List (String × α)),
      (∀ k ∈ pyKeys l, k ∉ pyKeys acc) → (pyKeys l).Nodup →
      l.foldl (fun d p => pySet d p.1 p.2) acc = acc ++ l := by
  intro l
  induction l with
  | nil => intro acc _ _; simp
  | cons p tl ih =>
      intro acc hdis hnd
      rw [pyKeys_cons, List.nodup_cons] at hnd
      rw [List.foldl_cons,
        pySet_not_mem acc p.1 p.2
          (hdis p.1 (mem_pyKeys_cons.mpr (Or.inl rfl)))]
      rw [ih (acc ++ [p]) ?_ hnd.2]
      · simp
      · intro k hk
        have h1 : k ∉ pyKeys acc :=
          hdis k (mem_pyKeys_cons.mpr (Or.inr hk))
        have h2 : k ≠ p.1 := fun h => hnd.1 (h ▸ hk)
        intro hmem
        rw [pyKeys, List.map_append] at hmem
        rcases List.mem_append.mp hmem with ha | hb
        · exact h1 ha
        · simp at hb
          exact h2 hb

theorem pyFromPairs_self {α : Type} (l : List (String × α))
    (h : (pyKeys l).Nodup) : pyFromPairs l = l := by
  have := foldl_pySet_disjoint l [] (by intro k _; simp [pyKeys]) h
  simpa [pyFromPairs] using this

/-! ## JSON text round trip: objects, arrays, the document -/

theorem parseInnerObj_render (i : Nat) (r : PyDict) (rest : List Char)
    (hk : (pyKeys r).Nodup) :
    parseInnerObj (renderInnerC i r ++ rest) = some (r, rest) := by
  cases r with
  | nil =>
      show parseInnerObj ('\x7b' :: '\x7d' :: rest) = some ([], rest)
      rfl
  | cons p tl =>
      have hre : renderInnerC i (p :: tl) ++ rest =
          '\x7b' :: '\n' :: (renderMembersC (i + 2) (p :: tl) ++
            ('\n' :: (spacesC i ++ '\x7d' :: rest))) := by
        simp [renderInnerC, List.append_assoc]
      rw [hre]
      simp only [parseInnerObj, expectChar]
      rw [if_pos trivial]
      dsimp only
      rw [skipWs_cons_ws _ (by decide)]
      have hhead : ((skipWs (renderMembersC (i + 2) (p :: tl) ++
          ('\n' :: (spacesC i ++ '\x7d' :: rest)))).headD ' ') = '"' := by
        rw [skipWs_members]
        rfl
      rw [if_neg (by rw [hhead]; decide)]
      rw [innerMembers_render (i + 2) i rest (p :: tl) _
        (List.cons_ne_nil p tl) (by
          have := members_skip_bound (i + 2) (p :: tl)
            ('\n' :: (spacesC i ++ '\x7d' :: rest)) (List.cons_ne_nil p tl)
          omega)]
      show some (pyFromPairs (p :: tl), rest) = some (p :: tl, rest)
      rw [pyFromPairs_self _ hk]

theorem arrayElems_render (i j : Nat) (rest : List Char) :
    ∀ (rows : List PyDict) (fuel : Nat), rows ≠ [] → rows.length < fuel →
      (∀ r ∈ rows, (pyKeys r).Nodup) →
      arrayElems fuel (skipWs (renderElemsC i rows ++
        ('\n' :: (spacesC j ++ ']' :: rest)))) = some (rows, rest) := by
  intro rows
  induction rows with
  | nil => intro fuel h _ _; exact absurd rfl h
  | cons r tl ih =>
      intro fuel _ hfuel hwf
      cases fuel with
      | zero => omega
      | succ f =>
          rw [skipWs_elems]
          cases tl with
          | nil =>
              simp only [arrayElems]
              rw [parseInnerObj_render i r _
                (hwf r (List.mem_cons_self r []))]
              dsimp only
              rw [skipWs_cons_ws _ (by decide), skipWs_append_spaces,
                skipWs_cons_not_ws _ (by decide)]
              rfl
          | cons q tl' =>
              simp only [arrayElems]
              rw [parseInnerObj_render i r _
                (hwf r (List.mem_cons_self r (q :: tl')))]
              dsimp only
              rw [skipWs_cons_not_ws _ (by decide)]
              change Option.map (fun x => (r :: x.1, x.2))
                (arrayElems f (skipWs ('\n' :: (renderElemsC i (q :: tl') ++
                  ('\n' :: (spacesC j ++ ']' :: rest)))))) =
                some (r :: q :: tl', rest)
              rw [skipWs_cons_ws _ (by decide)]
              rw [ih f (List.cons_ne_nil q tl') (by
                  simp only [List.length_cons] at hfuel ⊢
                  omega)
                (fun r' hr' => hwf r' (List.mem_cons_of_mem r hr'))]
              rfl

theorem parseRowArray_render (i : Nat) (rows : List PyDict)
    (rest : List Char) (hwf : ∀ r ∈ rows, (pyKeys r).Nodup) :
    parseRowArray (renderArrC i rows ++ rest) = some (rows, rest) := by
  cases rows with
  | nil =>
      show parseRowArray ('[' :: ']' :: rest) = some ([], rest)
      rfl
  | cons r tl =>
      have hre : renderArrC i (r :: tl) ++ rest =
          '[' :: '\n' :: (renderElemsC (i + 2) (r :: tl) ++
            ('\n' :: (spacesC i ++ ']' :: rest))) := by
        simp [renderArrC, List.append_assoc]
      rw [hre]
      simp only [parseRowArray, expectChar]
      rw [if_pos trivial]
      dsimp only
      rw [skipWs_cons_ws _ (by decide)]
      have hhead : ((skipWs (renderElemsC (i + 2) (r :: tl) ++
          ('\n' :: (spacesC i ++ ']' :: rest)))).headD ' ') = '\x7b' := by
        rw [skipWs_elems, renderInnerC_head]
        rfl
      rw [if_neg (by rw [hhead]; decide)]
      rw [arrayElems_render (i + 2) i rest (r :: tl) _
        (List.cons_ne_nil r tl) (by
          have := elems_skip_bound (i + 2) (r :: tl)
            ('\n' :: (spacesC i ++ ']' :: rest)) (List.cons_ne_nil r tl)
          omega)
        hwf]


theorem topMembers_render (rest : List Char) :
    ∀ (data : List (String × List PyDict)) (fuel : Nat), data ≠ [] →
      data.length < fuel →
      (∀ g ∈ data, ∀ r ∈ g.2, (pyKeys r).Nodup) →
      topMembers fuel (skipWs (renderTopMembersC data ++
        ('\n' :: '\x7d' :: rest))) = some (data, rest) := by
  intro data
  induction data with
  | nil => intro fuel h _ _; exact absurd rfl h
  | cons g tl ih =>
      intro fuel _ hfuel hwf
      cases fuel with
      | zero => omega
      | succ f =>
          rw [skipWs_top_members]
          cases tl with
          | nil =>
              simp only [topMembers]
              rw [parseStr_render]
              dsimp only
              rw [skipWs_cons_not_ws _ (by decide)]
              dsimp only [expectChar]
              rw [if_pos rfl]
              dsimp only
              rw [skipWs_cons_ws _ (by decide), skipWs_renderArr]
              rw [parseRowArray_render 2 g.2 _
                (hwf g (List.mem_cons_self g []))]
              dsimp only
              rw [skipWs_cons_ws _ (by decide),
                skipWs_cons_not_ws _ (by decide)]
              rfl
          | cons h tl' =>
              simp only [topMembers]
              rw [parseStr_render]
              dsimp only
              rw [skipWs_cons_not_ws _ (by decide)]
              dsimp only [expectChar]
              rw [if_pos rfl]
              dsimp only
              rw [skipWs_cons_ws _ (by decide), skipWs_renderArr]
              rw [parseRowArray_render 2 g.2 _
                (hwf g (List.mem_cons_self g (h :: tl')))]
              dsimp only
              rw [skipWs_cons_not_ws _ (by decide)]
              change Option.map (fun x => ((g.1, g.2) :: x.1, x.2))
                (topMembers f (skipWs ('\n' :: (renderTopMembersC (h :: tl') ++
                  ('\n' :: '\x7d' :: rest))))) = some (g :: h :: tl', rest)
              rw [skipWs_cons_ws _ (by decide)]
              rw [ih f (List.cons_ne_nil h tl') (by
                  simp only [List.length_cons] at hfuel ⊢
                  omega)
                (fun g' hg' => hwf g' (List.mem_cons_of_mem g hg'))]
              rfl

theorem parseTopObj_render (data : List (String × List PyDict))
    (rest : List Char) (hwf : ∀ g ∈ data, ∀ r ∈ g.2, (pyKeys r).Nodup) :
    parseTopObj (jsonDumpC data ++ rest) = some (data, rest) := by
  cases data with
  | nil =>
      show parseTopObj ('\x7b' :: '\x7d' :: rest) = some ([], rest)
      rfl
  | cons g tl =>
      have hre : jsonDumpC (g :: tl) ++ rest =
          '\x7b' :: '\n' :: (renderTopMembersC (g :: tl) ++
            ('\n' :: '\x7d' :: rest)) := by
        simp [jsonDumpC, List.append_assoc]
      rw [hre]
      simp only [parseTopObj, expectChar]
      rw [if_pos trivial]
      dsimp only
      rw [skipWs_cons_ws _ (by decide)]
      have hhead : ((skipWs (renderTopMembersC (g :: tl) ++
          ('\n' :: '\x7d' :: rest))).headD ' ') = '"' := by
        rw [skipWs_top_members]
        rfl
      rw [if_neg (by rw [hhead]; decide)]
      rw [topMembers_render rest (g :: tl) _ (List.cons_ne_nil g tl) (by
          have := top_skip_bound (g :: tl) ('\n' :: '\x7d' :: rest)
            (List.cons_ne_nil g tl)
          omega)
        hwf]

/-! ## Claim theorems: JSON persistence round trip (C9) -/

/-- C9: persisting an Aggregated Result Set to a `.json` path writes
`json.dump(data, ensure_ascii=False, indent=2)`, and `json.loads` of
that exact text returns a structurally identical mapping — the same
group keys in the same order, the same row lists, the same field
values.  (The key sets are duplicate-free because every Python dict's
are.) -/
theorem claim_C9 (data : List (String × List PyDict))
    (hg : (pyKeys data).Nodup)
    (hrows : ∀ g ∈ data, ∀ r ∈ g.2, (pyKeys r).Nodup) :
    json_loads (jsonDumpIndent2 data) = some data := by
  have hskip : skipWs (jsonDumpC data) = jsonDumpC data := by
    cases data with
    | nil => rfl
    | cons g tl =>
        show skipWs ('\x7b' :: ('\n' :: renderTopMembersC (g :: tl) ++
          '\n' :: ['\x7d'])) = _
        rw [skipWs_cons_not_ws _ (by decide)]
        rfl
  have hparse := parseTopObj_render data [] hrows
  rw [List.append_nil] at hparse
  unfold json_loads jsonDumpIndent2
  show (match parseTopObj (skipWs (jsonDumpC data)) with
    | none => none
    | some (d, rest) =>
        if skipWs rest = [] then some (pyFromPairs d) else none) = some data
  rw [hskip, hparse]
  show (if skipWs [] = [] then some (pyFromPairs data) else none) = some data
  rw [if_pos skipWs_nil, pyFromPairs_self data hg]

/-- C9 witness: the round trip applied to a concrete three-group
aggregate with heterogeneous rows, an empty row and an empty group. -/
theorem claim_C9_witness :
    (pyKeys ([("A", [[("x", "1")]]), ("B", [[("y", "2")], []]),
      ("C", [])] : List (String × List PyDict))).Nodup ∧
    json_loads (jsonDumpIndent2 [("A", [[("x", "1")]]),
      ("B", [[("y", "2")], []]), ("C", [])]) =
      some [("A", [[("x", "1")]]), ("B", [[("y", "2")], []]), ("C", [])] :=
  ⟨by decide,
   claim_C9 [("A", [[("x", "1")]]), ("B", [[("y", "2")], []]), ("C", [])]
     (by decide) (by decide)⟩

/-! ## Claim theorems: Reporter, amended (C3) -/

/-- C3 (amended): on an empty row list the Reporter prints the "no
events found" notice; on a non-empty row list it prints nothing when
`tabulate` is importable (its call is commented out in the source), and
only in the `ImportError` fallback does it print one line, the
indent-2 JSON rendering of the rows — which parses back to exactly the
printed rows. -/
theorem claim_C3_amended (tab : Bool) (rows : List PyDict)
    (hwf : ∀ r ∈ rows, (pyKeys r).Nodup) :
    pretty_print tab rows =
      (if rows = [] then ["No se encontraron eventos."]
       else if tab then [] else [jsonDumpsRows rows]) ∧
    (rows ≠ [] → jsonLoadsRowsDoc (jsonDumpsRows rows) = some rows) := by
  refine ⟨rfl, fun _ => ?_⟩
  have hskip : skipWs (renderArrC 0 rows) = renderArrC 0 rows := by
    have := skipWs_renderArr 0 rows []
    simpa using this
  have hparse := parseRowArray_render 0 rows [] hwf
  rw [List.append_nil] at hparse
  unfold jsonLoadsRowsDoc jsonDumpsRows
  show (match parseRowArray (skipWs (renderArrC 0 rows)) with
    | none => none
    | some (r, rest) => if skipWs rest = [] then some r else none) = some rows
  rw [hskip, hparse]
  show (if skipWs [] = [] then some rows else none) = some rows
  rw [if_pos skipWs_nil]

/-- C3 witness: the amended theorem at a concrete one-row list, in both
`tabulate` modes. -/
theorem claim_C3_witness :
    (∀ r ∈ ([[("a", "1")]] : List PyDict), (pyKeys r).Nodup) ∧
    pretty_print true [[("a", "1")]] = [] ∧
    pretty_print false [[("a", "1")]] = [jsonDumpsRows [[("a", "1")]]] ∧
    jsonLoadsRowsDoc (jsonDumpsRows [[("a", "1")]]) = some [[("a", "1")]] :=
  ⟨by decide,
   by rw [(claim_C3_amended true [[("a", "1")]] (by decide)).1]
      rfl,
   by rw [(claim_C3_amended false [[("a", "1")]] (by decide)).1]
      rfl,
   (claim_C3_amended false [[("a", "1")]] (by decide)).2
     (by decide)⟩


/-! ## Claim theorems: CSV persister (C8) -/

theorem charListLe_total : ∀ a b : List Char,
    charListLe a b = true ∨ charListLe b a = true := by
  intro a
  induction a with
  | nil => intro b; left; rfl
  | cons x xs ih =>
      intro b
      cases b with
      | nil => right; rfl
      | cons y ys =>
          by_cases h1 : x.toNat < y.toNat
          · left
            simp [charListLe, h1]
          · by_cases h2 : y.toNat < x.toNat
            · right
              simp [charListLe, h2]
            · rcases ih ys with h | h
              · left
                simp [charListLe, h1, h2, h]
              · right
                simp [charListLe, h1, h2, h]

theorem charListLe_trans : ∀ a b c : List Char,
    charListLe a b = true → charListLe b c = true →
    charListLe a c = true := by
  intro a
  induction a with
  | nil => intro b c _ _; rfl
  | cons x xs ih =>
      intro b c hab hbc
      cases b with
      | nil => simp [charListLe] at hab
      | cons y ys =>
          cases c with
          | nil => simp [charListLe] at hbc
          | cons z zs =>
              simp only [charListLe] at hab hbc ⊢
              by_cases h1 : x.toNat < y.toNat <;>
                by_cases h2 : y.toNat < z.toNat <;>
                by_cases h3 : x.toNat < z.toNat <;>
                simp [h1, h2, h3] at hab hbc ⊢ <;>
                try omega
              all_goals {
                rcases hab with ⟨h4, hab⟩
                rcases hbc with ⟨h5, hbc⟩
                exact ⟨by omega, ih ys zs hab hbc⟩
              }

theorem csvAllRows_shape (data : List (String × List PyDict)) :
    ∀ x ∈ csvAllRows data, ∃ lg r, x = pySet r "log_group" lg := by
  intro x hx
  obtain ⟨g, _, hx2⟩ := List.mem_flatMap.mp hx
  obtain ⟨r, _, hr2⟩ := List.mem_map.mp hx2
  exact ⟨g.1, r, hr2.symm⟩

/-- C8: on a `.csv` path with at least one record, `save_results`
writes a header that is the deterministically sorted, duplicate-free
union of all field names across all rows (`log_group` included, since
it is injected into every row), followed by exactly one record per row
of the aggregate in order; a record's cell is blank whenever its row
lacks the header's field. -/
theorem claim_C8 (data : List (String × List PyDict)) (path : String)
    (hsuf : pyLower (pathSuffix path) = ".csv")
    (hne : csvAllRows data ≠ []) :
    ∃ header records, save_results data path = .savedCsv header records ∧
      header.Sorted (fun a b => pyStrLe a b = true) ∧
      header.Nodup ∧
      (∀ k, k ∈ header ↔ ∃ r ∈ csvAllRows data, k ∈ pyKeys r) ∧
      "log_group" ∈ header ∧
      records = (csvAllRows data).map (csvRecord header) ∧
      records.length = (data.map (fun g => g.2.length)).sum ∧
      (∀ r ∈ csvAllRows data, ∀ j, j < header.length →
        header.getD j "" ∉ pyKeys r → (csvRecord header r).getD j "" = "") := by
  haveI : IsTotal String (fun a b => pyStrLe a b = true) :=
    ⟨fun a b => charListLe_total a.data b.data⟩
  haveI : IsTrans String (fun a b => pyStrLe a b = true) :=
    ⟨fun a b c => charListLe_trans a.data b.data c.data⟩
  have hperm : List.Perm (csvFieldnames (csvAllRows data))
      (((csvAllRows data).flatMap pyKeys).dedup) :=
    List.perm_insertionSort _ _
  have hmem : ∀ k, k ∈ csvFieldnames (csvAllRows data) ↔
      ∃ r ∈ csvAllRows data, k ∈ pyKeys r := by
    intro k
    rw [hperm.mem_iff, List.mem_dedup, List.mem_flatMap]
  refine ⟨csvFieldnames (csvAllRows data),
    (csvAllRows data).map (csvRecord (csvFieldnames (csvAllRows data))),
    ?_, ?_, ?_, hmem, ?_, rfl, ?_, ?_⟩
  · unfold save_results
    rw [hsuf]
    rw [if_neg (by decide : ¬ ((".csv" : String) = ".json")),
      if_pos rfl]
    dsimp only
    rw [if_neg hne]
  · exact List.sorted_insertionSort _ _
  · exact hperm.nodup_iff.mpr (List.nodup_dedup _)
  · obtain ⟨x, hx⟩ := List.exists_mem_of_ne_nil _ hne
    obtain ⟨lg, r, hxr⟩ := csvAllRows_shape data x hx
    exact (hmem "log_group").mpr ⟨x, hx, by
      rw [hxr]
      exact mem_pyKeys_pySet_self r "log_group" lg⟩
  · rw [List.length_map]
    unfold csvAllRows
    rw [List.length_flatMap]
    congr 1
    apply List.map_congr_left
    intro g _
    simp
  · intro r _ j hj hk
    have hj' : j < (csvRecord (csvFieldnames (csvAllRows data)) r).length := by
      simpa [csvRecord] using hj
    rw [List.getD_eq_getElem _ _ hj']
    rw [List.getD_eq_getElem _ _ hj] at hk
    simp only [csvRecord, List.getElem_map]
    rw [pyGet_eq_none_of_not_mem hk]
    rfl

/-- C8 witness: the spec's heterogeneous example — group `A` with row
`{"x": "1"}` and group `B` with row `{"y": "2"}` written to `out.csv`
produce header `["log_group", "x", "y"]` and one record per row with
blanks for the absent fields. -/
theorem claim_C8_witness :
    pyLower (pathSuffix "out.csv") = ".csv" ∧
    csvAllRows [("A", [[("x", "1")]]), ("B", [[("y", "2")]])] ≠ [] ∧
    save_results [("A", [[("x", "1")]]), ("B", [[("y", "2")]])] "out.csv" =
      .savedCsv ["log_group", "x", "y"] [["A", "1", ""], ["B", "", "2"]] ∧
    (∃ header records,
      save_results [("A", [[("x", "1")]]), ("B", [[("y", "2")]])] "out.csv" =
        .savedCsv header records ∧
      header.Sorted (fun a b => pyStrLe a b = true) ∧
      header.Nodup ∧
      (∀ k, k ∈ header ↔
        ∃ r ∈ csvAllRows [("A", [[("x", "1")]]), ("B", [[("y", "2")]])],
          k ∈ pyKeys r) ∧
      "log_group" ∈ header ∧
      records = (csvAllRows [("A", [[("x", "1")]]),
        ("B", [[("y", "2")]])]).map (csvRecord header) ∧
      records.length = (([("A", [[("x", "1")]]),
        ("B", [[("y", "2")]])] : List (String × List PyDict)).map
          (fun g => g.2.length)).sum ∧
      (∀ r ∈ csvAllRows [("A", [[("x", "1")]]), ("B", [[("y", "2")]])],
        ∀ j, j < header.length → header.getD j "" ∉ pyKeys r →
          (csvRecord header r).getD j "" = "")) :=
  ⟨by decide, by decide, by decide,
   claim_C8 [("A", [[("x", "1")]]), ("B", [[("y", "2")]])] "out.csv"
     (by decide) (by decide)⟩


end CloudwatchQuery
